import Mathlib

/-!
# Verification of the annual-demand-forecast core pipeline

Shallow embedding of the repository's share-validation subsystem
(`src/pipeline/validation.ts`), cohort allocation engine
(`cohortAllocator.ts`), dose/exposure calculator (`exposure.ts`) and
forecast generator (`forecast.ts`), with theorems settling the frozen
claims about them.

Modelling conventions:
* JavaScript numbers are modelled as rationals (`ℚ`); the single numeric
  value `NaN` relevant to the validators is modelled by the two-case type
  `JNum` (`nan` or `num q`).  Division by zero follows Lean's convention
  `q / 0 = 0`; no claim exercises that corner.
* Log/exception message strings are modelled as structured constructors
  carrying the same data (dimension name, offending value, path key ...)
  that the source interpolates into its strings; purely cosmetic number
  formatting (`toFixed`) is not modelled.
* `Math.sqrt` (used only for the body-surface-area branch) and the
  regular-expression engine behind `extractMaintenanceIntervalFromNotes`
  are external to rational arithmetic; they are passed as an explicit
  parameter (`ExternalFns`), and every theorem holds for all
  instantiations of that parameter.
* `Record<string, number>` objects are modelled as association lists in
  insertion order (`ShareMap`), matching `Object.entries` iteration.
-/

namespace ADF

/-- A JavaScript number as seen by the validators: `NaN` or a rational. -/
inductive JNum
  | nan
  | num (q : ℚ)
  deriving DecidableEq, Repr

/-- Numeric value of a `JNum`; only used after NaN has been ruled out. -/
def JNum.toQ : JNum → ℚ
  | .nan => 0
  | .num q => q

/-- A `Record<string, number>` in insertion order. -/
abbrev ShareMap := List (String × ℚ)

/-- A `Record<string, number>` possibly containing `NaN` values. -/
abbrev JShareMap := List (String × JNum)

/-- Sum of the values of a share map (`Object.values(...).reduce((a,b)=>a+b,0)`). -/
def mapSum (m : ShareMap) : ℚ := (m.map (·.2)).sum

/-- Structured rendering of the validation error strings of `validation.ts`. -/
inductive VError
  | emptyShares (dimension : String)
  | nanValue (dimension key : String)
  | negativeValue (dimension key : String) (v : ℚ)
  | exceedsOne (dimension key : String) (v : ℚ)
  | sumOutOfRange (dimension : String) (sum : ℚ)
  | rateNaN (name : String)
  | rateNegative (name : String) (v : ℚ)
  | rateExceedsOne (name : String) (v : ℚ)
  | popNaN (name : String)
  | popNegative (name : String) (v : ℚ)
  | popExceedsMax (name : String) (v m : ℚ)
  deriving DecidableEq, Repr

/-- Structured rendering of the warning strings of the validation and
allocation modules. -/
inductive Warning
  | renormalized (dimension : String) (original_sum : ℚ)
  | patientLoss (dimension : String) (sum : ℚ)
  | largePopulation (name : String) (v : ℚ)
  | noPrevalenceProvided
  | noIncidenceProvided
  | noBasePopulation
  | equalDistribution (dimension : String) (share : ℚ)
  | conservation (total_allocated treated_pool : ℚ)
  deriving DecidableEq, Repr

/-- `ValidationConfig` of `validation.ts`. -/
structure ValidationConfig where
  allow_share_renormalization : Bool
  allow_equal_regimen_split : Bool
  share_sum_tolerance : ℚ
  max_renormalization_deviation : ℚ
  max_population : Option ℚ
  deriving DecidableEq, Repr

/-- `DEFAULT_VALIDATION_CONFIG`. -/
def DEFAULT_VALIDATION_CONFIG : ValidationConfig where
  allow_share_renormalization := true
  allow_equal_regimen_split := true
  share_sum_tolerance := 5 / 100
  max_renormalization_deviation := 15 / 100
  max_population := some 350000000

/-- `ValidationResult` of `validation.ts`; `normalized_value` is only ever a
share map in the code paths the claims touch. -/
structure ValidationResult where
  valid : Bool
  errors : List VError
  warnings : List Warning
  normalized_value : Option ShareMap := none
  deriving DecidableEq, Repr

/-- `ShareValidationTrace` of `validation.ts`. -/
structure ShareValidationTrace where
  original_shares : JShareMap
  original_sum : ℚ
  normalized_shares : ShareMap
  normalized : Bool
  warning : Option Warning := none
  deriving DecidableEq, Repr

/-- `validateRate`: a rate must be a non-NaN number in `[0, 1]`. -/
def validateRate (rate : JNum) (name : String) : ValidationResult :=
  match rate with
  | .nan => { valid := false, errors := [.rateNaN name], warnings := [] }
  | .num q =>
    if q < 0 then { valid := false, errors := [.rateNegative name q], warnings := [] }
    else if 1 < q then { valid := false, errors := [.rateExceedsOne name q], warnings := [] }
    else { valid := true, errors := [], warnings := [] }

/-- The per-entry error list of `validateShares`' value loop (NaN entries
`continue` past the range checks; all errors are collected). -/
def shareValueErrors (dimension : String) (shares : JShareMap) : List VError :=
  shares.flatMap fun kv =>
    match kv.2 with
    | .nan => [.nanValue dimension kv.1]
    | .num q =>
      (if q < 0 then [.negativeValue dimension kv.1 q] else []) ++
      (if 1 < q then [.exceedsOne dimension kv.1 q] else [])

/-- The rational values of a NaN-free share map. -/
def qSharesOf (shares : JShareMap) : ShareMap := shares.map fun kv => (kv.1, kv.2.toQ)

/-- The sum computed by `validateShares` (NaN-free by the time it is read). -/
def jShareSum (shares : JShareMap) : ℚ := mapSum (qSharesOf shares)

/-- `validateShares` of `validation.ts`: per-value checks, then the
tolerance/renormalization policy on the sum. -/
def validateShares (shares : JShareMap) (dimension_name : String)
    (config : ValidationConfig) : ValidationResult × ShareValidationTrace :=
  let trace0 : ShareValidationTrace :=
    { original_shares := shares, original_sum := 0, normalized_shares := [], normalized := false }
  if shares.isEmpty then
    ({ valid := false, errors := [.emptyShares dimension_name], warnings := [] }, trace0)
  else
    let valueErrors := shareValueErrors dimension_name shares
    if valueErrors.isEmpty then
      let qshares : ShareMap := qSharesOf shares
      let sum := jShareSum shares
      let trace1 := { trace0 with original_sum := sum }
      let deviation := |sum - 1|
      if config.share_sum_tolerance < deviation then
        if 1 < sum then
          if config.allow_share_renormalization ∧ deviation ≤ config.max_renormalization_deviation then
            let normalized : ShareMap := qshares.map fun kv => (kv.1, kv.2 / sum)
            let w : Warning := .renormalized dimension_name sum
            ({ valid := true, errors := [], warnings := [w], normalized_value := some normalized },
             { trace1 with normalized_shares := normalized, normalized := true, warning := some w })
          else
            ({ valid := false, errors := [.sumOutOfRange dimension_name sum], warnings := [] }, trace1)
        else
          -- sum below 1.0: intentional patient loss, passed through unless the
          -- deviation is small and renormalization is enabled
          if config.max_renormalization_deviation < deviation then
            ({ valid := true, errors := [], warnings := [.patientLoss dimension_name sum],
               normalized_value := some qshares },
             { trace1 with normalized_shares := qshares })
          else if config.allow_share_renormalization then
            let normalized : ShareMap := qshares.map fun kv => (kv.1, kv.2 / sum)
            let w : Warning := .renormalized dimension_name sum
            ({ valid := true, errors := [], warnings := [w], normalized_value := some normalized },
             { trace1 with normalized_shares := normalized, normalized := true, warning := some w })
          else
            ({ valid := true, errors := [], warnings := [], normalized_value := some qshares },
             { trace1 with normalized_shares := qshares })
      else
        ({ valid := true, errors := [], warnings := [], normalized_value := some qshares },
         { trace1 with normalized_shares := qshares })
    else
      ({ valid := false, errors := valueErrors, warnings := [] }, trace0)

/-- `validatePopulation`: non-negative, below the configured ceiling
(`config.max_population &&` is a JS truthiness test, so a ceiling of `0`
is ignored), with a warning above 100 million. -/
def validatePopulation (population : JNum) (name : String)
    (config : ValidationConfig) : ValidationResult :=
  match population with
  | .nan => { valid := false, errors := [.popNaN name], warnings := [] }
  | .num q =>
    let errs :=
      (if q < 0 then [VError.popNegative name q] else []) ++
      (match config.max_population with
       | some m => if m ≠ 0 ∧ m < q then [VError.popExceedsMax name q m] else []
       | none => [])
    let warns := if 100000000 < q then [Warning.largePopulation name q] else []
    { valid := errs.isEmpty, errors := errs, warnings := warns }

/-! ## Domain model (`domain/types.ts`, fields used by the embedded core) -/

/-- Dose type tag of `DoseSchema`. -/
inductive DoseType
  | mg_per_kg
  | fixed_mg
  | mg_per_m2
  | other
  deriving DecidableEq, Repr

/-- Maintenance dose of a `DoseSchema`. -/
structure DoseAmount where
  value : ℚ
  unit : String
  deriving DecidableEq, Repr

/-- Optional loading dose of a `DoseSchema` (`repeats` is optional in TS). -/
structure LoadingDose where
  value : ℚ
  unit : String
  repeats : Option ℚ := none
  deriving DecidableEq, Repr

/-- `DoseSchema` of `domain/types.ts`. -/
structure DoseSchema where
  type : DoseType
  loading : Option LoadingDose := none
  maintenance : DoseAmount
  interval_days : ℚ
  notes : Option String := none
  deriving DecidableEq, Repr

/-- Administration route. -/
inductive Route
  | IV
  | SC
  | PO
  | IM
  | other
  deriving DecidableEq, Repr

/-- `TreatmentNode`, restricted to the fields the allocation and demand
calculations read. -/
structure TreatmentNode where
  node_id : String
  subtype_key : Option String := none
  setting_key : Option String := none
  stage_key : Option String := none
  line_key : Option String := none
  regimen_key : String
  route : Route
  dose_schema : DoseSchema
  deriving DecidableEq, Repr

/-- `TreatmentMap`, restricted to the fields the core reads. -/
structure TreatmentMap where
  disease : String
  molecule : String
  nodes : List TreatmentNode
  deriving DecidableEq, Repr

/-- `VialSize` of `domain/types.ts`. -/
structure VialSize where
  size_mg : ℚ
  is_single_dose : Bool
  deriving DecidableEq, Repr

/-- The `vial_sizes` record of `Assumptions` (only IV and SC keys exist). -/
structure VialSizes where
  IV : Option (List VialSize) := none
  SC : Option (List VialSize) := none
  deriving DecidableEq, Repr

/-- `assumptions.vial_sizes[route]`: routes other than IV/SC are absent. -/
def VialSizes.forRoute (vs : VialSizes) : Route → Option (List VialSize)
  | .IV => vs.IV
  | .SC => vs.SC
  | _ => none

/-- `avg_weight_kg : number | { mean; sd }`. -/
inductive AvgWeight
  | single (kg : ℚ)
  | dist (mean sd : ℚ)
  deriving DecidableEq, Repr

/-- The weight actually used: the number itself, or the `mean` field. -/
def AvgWeight.kg : AvgWeight → ℚ
  | .single w => w
  | .dist m _ => m

/-- `ScenarioParameters` of `domain/types.ts`. -/
structure ScenarioParameters where
  incidence_cagr : ℚ
  treated_rate_multiplier : ℚ
  tot_multiplier : ℚ
  adoption_multiplier : ℚ
  deriving DecidableEq, Repr

/-- `Assumptions`, restricted to the fields the core reads.  The `scenarios`
record is modelled as an association list in key-insertion order, matching
`Object.entries`. -/
structure Assumptions where
  base_year : ℤ
  horizon_years : ℕ
  avg_weight_kg : AvgWeight
  vial_sizes : VialSizes
  incidence : Option ℚ := none
  prevalence : Option ℚ := none
  subtype_shares : Option ShareMap := none
  stage_shares : Option ShareMap := none
  setting_shares : Option ShareMap := none
  treated_rate : ℚ
  line_shares : Option ShareMap := none
  time_on_treatment_months : Option ShareMap := none
  relative_dose_intensity : Option ℚ := none
  scenarios : Option (List (String × ScenarioParameters)) := none
  deriving DecidableEq, Repr

/-- JS truthiness of an optional number (`undefined`, `null` and `0` are
falsy). -/
def qTruthy : Option ℚ → Bool
  | none => false
  | some q => !(q == 0)

/-- JS truthiness of an optional string (`undefined`, `null` and `''` are
falsy). -/
def sTruthy : Option String → Bool
  | none => false
  | some s => !(s == "")

/-- `x || 0` on an optional number. -/
def qOrZero (x : Option ℚ) : ℚ := (x.getD 0)

/-- `key || '_'` as used by `buildPathKey`. -/
def keyOrU (x : Option String) : String :=
  match x with
  | some s => if s = "" then "_" else s
  | none => "_"

/-! ## Cohort allocation engine (`cohortAllocator.ts`) -/

/-- Population model selector of `CohortAllocationConfig`. -/
inductive PopulationModel
  | prevalence_based
  | incidence_based
  | auto
  deriving DecidableEq, Repr

/-- `CohortAllocationConfig`. -/
structure CohortAllocationConfig extends ValidationConfig where
  population_model : PopulationModel
  regimen_shares : Option ShareMap := none
  deriving DecidableEq, Repr

/-- `DEFAULT_ALLOCATION_CONFIG`. -/
def DEFAULT_ALLOCATION_CONFIG : CohortAllocationConfig where
  toValidationConfig := DEFAULT_VALIDATION_CONFIG
  population_model := .auto

/-- One step of an `AllocationTrace`. -/
structure TraceStep where
  step : String
  input_population : ℚ
  share_applied : Option ℚ := none
  share_key : Option String := none
  output_population : ℚ
  normalized : Option Bool := none
  note_path_key : Option String := none
  deriving DecidableEq, Repr

/-- Dimension path of a leaf cohort. -/
structure CohortPath where
  subtype_key : Option String
  setting_key : Option String
  line_key : Option String
  regimen_key : String
  deriving DecidableEq, Repr

/-- `LeafCohort`. -/
structure LeafCohort where
  cohort_id : String
  path : CohortPath
  patients : ℚ
  patient_years : ℚ
  trace : List TraceStep
  deriving DecidableEq, Repr

/-- Source tag of the base population. -/
inductive BasePoolSource
  | prevalence
  | incidence
  deriving DecidableEq, Repr

/-- The `share_traces` record of the allocation result (the `regimen_shares`
slot exists in the source type but is never written). -/
structure ShareTraces where
  subtype_shares : Option ShareValidationTrace := none
  setting_shares : Option ShareValidationTrace := none
  line_shares : Option ShareValidationTrace := none
  deriving DecidableEq, Repr

/-- `CohortAllocationResult`. -/
structure CohortAllocationResult where
  base_pool : ℚ
  base_pool_source : BasePoolSource
  treated_pool : ℚ
  leaf_cohorts : List LeafCohort
  total_allocated : ℚ
  share_traces : ShareTraces
  conservation_ratio : ℚ
  warnings : List Warning
  deriving DecidableEq, Repr

/-- Errors thrown by the allocator (`throw new Error(...)`). -/
inductive AllocError
  | validationFailed (context : String) (errors : List VError)
  | noRegimenShares (pathKey : String)
  deriving DecidableEq, Repr

/-- `throwIfInvalid`. -/
def throwIfInvalid (result : ValidationResult) (context : String) :
    Except AllocError Unit :=
  if result.valid then .ok () else .error (.validationFailed context result.errors)

/-- Step 1 of `allocateCohorts`: determine the base population. -/
def determineBasePool (a : Assumptions) (config : CohortAllocationConfig) :
    ℚ × BasePoolSource × List Warning :=
  match config.population_model with
  | .prevalence_based =>
    (qOrZero a.prevalence, .prevalence,
     if !qTruthy a.prevalence then [.noPrevalenceProvided] else [])
  | .incidence_based =>
    (qOrZero a.incidence, .incidence,
     if !qTruthy a.incidence then [.noIncidenceProvided] else [])
  | .auto =>
    -- auto: prefer prevalence when truthy and positive, else incidence
    match a.prevalence with
    | some p =>
      if p ≠ 0 ∧ 0 < p then (p, .prevalence, [])
      else match a.incidence with
        | some i => if i ≠ 0 ∧ 0 < i then (i, .incidence, [])
                    else (0, .prevalence, [.noBasePopulation])
        | none => (0, .prevalence, [.noBasePopulation])
    | none =>
      match a.incidence with
      | some i => if i ≠ 0 ∧ 0 < i then (i, .incidence, [])
                  else (0, .prevalence, [.noBasePopulation])
      | none => (0, .prevalence, [.noBasePopulation])

/-- Append a value to a list unless already present (a JS `Set` / `Map`
in insertion order). -/
def insertUnique (l : List String) (s : String) : List String :=
  if s ∈ l then l else l ++ [s]

/-- Step 3: the distinct truthy values of one dimension, in first-occurrence
order (`new Set()` plus `if (node.key) add(node.key)`). -/
def uniqueValues (f : TreatmentNode → Option String) (nodes : List TreatmentNode) :
    List String :=
  nodes.foldl
    (fun acc n =>
      match f n with
      | some s => if s = "" then acc else insertUnique acc s
      | none => acc)
    []

/-- `buildPathKey`. -/
def buildPathKey (subtype_key setting_key line_key : Option String) : String :=
  keyOrU subtype_key ++ "|" ++ keyOrU setting_key ++ "|" ++ keyOrU line_key

/-- A unique dimension path together with the regimens that live on it. -/
structure PathInfo where
  subtype_key : Option String
  setting_key : Option String
  line_key : Option String
  regimen_keys : List String
  deriving DecidableEq, Repr

/-- Insert one treatment node into the `unique_paths` map (step 5 preamble). -/
def upsertPathNode (paths : List (String × PathInfo)) (n : TreatmentNode) :
    List (String × PathInfo) :=
  let k := buildPathKey n.subtype_key n.setting_key n.line_key
  if paths.any (fun kp => kp.1 = k) then
    paths.map fun kp =>
      if kp.1 = k then
        (kp.1, { kp.2 with regimen_keys :=
          if n.regimen_key ∈ kp.2.regimen_keys then kp.2.regimen_keys
          else kp.2.regimen_keys ++ [n.regimen_key] })
      else kp
  else
    paths ++ [(k, ⟨n.subtype_key, n.setting_key, n.line_key, [n.regimen_key]⟩)]

/-- The `unique_paths` map of `allocateCohorts`, in insertion order. -/
def uniquePaths (tm : TreatmentMap) : List (String × PathInfo) :=
  tm.nodes.foldl upsertPathNode []

/-- `filterSharesForDimension`: keep only the keys the taxonomy uses. -/
def filterSharesForDimension (shares : ShareMap) (dimension_keys : List String) :
    ShareMap :=
  dimension_keys.filterMap fun k => (shares.lookup k).map fun v => (k, v)

/-- Wrap plain rationals for `validateShares`. -/
def toJShares (m : ShareMap) : JShareMap := m.map fun kv => (kv.1, .num kv.2)

/-- Step 4 for one dimension: validate/normalize the provided shares, or
fall back to an equal split across the observed values, with a warning. -/
def normalizeDimension (dimension_name : String) (uniq : List String)
    (provided : Option ShareMap) (config : ValidationConfig) :
    Except AllocError (ShareMap × Option ShareValidationTrace × List Warning) :=
  if uniq.isEmpty then .ok ([], none, [])
  else
    match provided with
    | some shares => do
      let (result, trace) :=
        validateShares (toJShares (filterSharesForDimension shares uniq)) dimension_name config
      throwIfInvalid result dimension_name
      .ok (result.normalized_value.getD [], some trace, result.warnings)
    | none =>
      let equal_share : ℚ := 1 / (uniq.length : ℚ)
      .ok (uniq.map fun v => (v, equal_share), none,
           [.equalDistribution dimension_name equal_share])

/-- The normalized dimension shares, traces, and warnings of step 4. -/
structure SharesCtx where
  subtype : ShareMap
  setting : ShareMap
  line : ShareMap
  traces : ShareTraces
  warnings : List Warning
  deriving DecidableEq, Repr

instance : Inhabited SharesCtx := ⟨⟨[], [], [], {}, []⟩⟩

/-- Step 4 of `allocateCohorts` for all three dimensions
(`setting_shares || stage_shares` is the JS fallback). -/
def buildShares (tm : TreatmentMap) (a : Assumptions) (cfg : CohortAllocationConfig) :
    Except AllocError SharesCtx := do
  let (sub, t_sub, w1) ←
    normalizeDimension "subtype_shares" (uniqueValues (·.subtype_key) tm.nodes)
      a.subtype_shares cfg.toValidationConfig
  let (set, t_set, w2) ←
    normalizeDimension "setting_shares" (uniqueValues (·.setting_key) tm.nodes)
      (a.setting_shares <|> a.stage_shares) cfg.toValidationConfig
  let (lin, t_lin, w3) ←
    normalizeDimension "line_shares" (uniqueValues (·.line_key) tm.nodes)
      a.line_shares cfg.toValidationConfig
  .ok ⟨sub, set, lin, ⟨t_sub, t_set, t_lin⟩, w1 ++ w2 ++ w3⟩

/-- Truthy projection of an optional dimension key. -/
def truthyKey : Option String → Option String
  | some s => if s = "" then none else some s
  | none => none

/-- Apply one dimension share to the running population
(`if (pathInfo.key && shares[key] !== undefined)`). -/
def applyShare (stepName : String) (key : Option String) (m : ShareMap)
    (normFlag : Option Bool) (pop : ℚ) : ℚ × List TraceStep :=
  match truthyKey key with
  | some k =>
    match m.lookup k with
    | some share =>
      (pop * share,
       [{ step := stepName, input_population := pop, share_applied := some share,
          share_key := some k, output_population := pop * share, normalized := normFlag }])
    | none => (pop, [])
  | none => (pop, [])

/-- The configured regimen shares (`config.regimen_shares || {}`). -/
def configRegimenShares (cfg : CohortAllocationConfig) : ShareMap :=
  cfg.regimen_shares.getD []

/-- `regimens.some(r => regimen_shares[r] !== undefined)`. -/
def pathHasShares (cfg : CohortAllocationConfig) (p : PathInfo) : Bool :=
  p.regimen_keys.any fun r => ((configRegimenShares cfg).lookup r).isSome

/-- Sum of the configured shares of the regimens at a path (missing = 0). -/
def pathRegimenSum (cfg : CohortAllocationConfig) (p : PathInfo) : ℚ :=
  (p.regimen_keys.map fun r => qOrZero ((configRegimenShares cfg).lookup r)).sum

/-- Step 5 regimen-share table for one path: configured shares renormalized
within the path, or an equal split. -/
def buildPathRegimenShares (cfg : CohortAllocationConfig) (pathKey : String)
    (p : PathInfo) (pop : ℚ) : List (String × ℚ) × List TraceStep :=
  if pathHasShares cfg p then
    let raw : List (String × ℚ) :=
      p.regimen_keys.map fun r => (r, qOrZero ((configRegimenShares cfg).lookup r))
    let path_sum : ℚ := (raw.map (·.2)).sum
    if 0 < path_sum ∧ 1 / 1000 < |path_sum - 1| then
      (raw.map fun kv => (kv.1, kv.2 / path_sum),
       [{ step := "regimen_renormalization", input_population := pop,
          output_population := pop, note_path_key := some pathKey }])
    else (raw, [])
  else
    let equal_share : ℚ := 1 / (p.regimen_keys.length : ℚ)
    (p.regimen_keys.map fun r => (r, equal_share),
     [{ step := "regimen_equal_split", input_population := pop,
        output_population := pop, note_path_key := some pathKey }])

/-- Patient-years of one leaf
(`if (pathInfo.line_key && time_on_treatment_months?.[line_key])`). -/
def cohortPatientYears (a : Assumptions) (p : PathInfo) (pop : ℚ) :
    ℚ × List TraceStep :=
  match truthyKey p.line_key with
  | some lk =>
    match (a.time_on_treatment_months.getD []).lookup lk with
    | some tot =>
      if tot = 0 then (pop, [])
      else
        (pop * (tot / 12),
         [{ step := "patient_years_calculation", input_population := pop,
            share_applied := some (tot / 12), share_key := some ("ToT_" ++ lk),
            output_population := pop * (tot / 12) }])
    | none => (pop, [])
  | none => (pop, [])

/-- `buildCohortId`. -/
def buildCohortId (subtype_key setting_key line_key : Option String)
    (regimen_key : String) : String :=
  String.intercalate "_"
    (([subtype_key, setting_key, line_key].filterMap truthyKey) ++ [regimen_key])

/-- Step 5 of `allocateCohorts` for one unique path: apply the dimension
shares in order, split across regimens, and build the leaf cohorts. -/
def allocatePath (a : Assumptions) (cfg : CohortAllocationConfig)
    (base_pool treated_rate treated_pool : ℚ) (ctx : SharesCtx)
    (kp : String × PathInfo) : Except AllocError (List LeafCohort) :=
  let pathKey := kp.1
  let p := kp.2
  let trace0 : List TraceStep :=
    [{ step := "start", input_population := base_pool, share_applied := some treated_rate,
       share_key := some "treated_rate", output_population := treated_pool }]
  let s1 := applyShare "subtype_allocation" p.subtype_key ctx.subtype
    (ctx.traces.subtype_shares.map (·.normalized)) treated_pool
  let s2 := applyShare "setting_allocation" p.setting_key ctx.setting
    (ctx.traces.setting_shares.map (·.normalized)) s1.1
  let s3 := applyShare "line_allocation" p.line_key ctx.line
    (ctx.traces.line_shares.map (·.normalized)) s2.1
  let current := s3.1
  if ¬ pathHasShares cfg p ∧ ¬ cfg.allow_equal_regimen_split then
    .error (.noRegimenShares pathKey)
  else
    let reg := buildPathRegimenShares cfg pathKey p current
    let trace := trace0 ++ s1.2 ++ s2.2 ++ s3.2 ++ reg.2
    .ok (p.regimen_keys.map fun regimen =>
      let regimen_share := qOrZero (reg.1.lookup regimen)
      let regimen_population := current * regimen_share
      let py := cohortPatientYears a p regimen_population
      { cohort_id := buildCohortId p.subtype_key p.setting_key p.line_key regimen,
        path := ⟨p.subtype_key, p.setting_key, p.line_key, regimen⟩,
        patients := regimen_population,
        patient_years := py.1,
        trace := trace ++
          [{ step := "regimen_allocation", input_population := current,
             share_applied := some regimen_share, share_key := some regimen,
             output_population := regimen_population }] ++ py.2 })

/-- Sequential effectful map over a list (the allocator's `for` loop over
paths: the first thrown error aborts the whole call). -/
def mapME {α β ε : Type} (f : α → Except ε β) : List α → Except ε (List β)
  | [] => .ok []
  | a :: l => do
    let b ← f a
    let bs ← mapME f l
    .ok (b :: bs)

/-- Steps 1–4 of `allocateCohorts`: base pool, treated pool, and validated
dimension shares (`treated_rate ?? 1.0` never fires for a well-typed
`Assumptions`). -/
structure AllocPrefix where
  base_pool : ℚ
  base_pool_source : BasePoolSource
  treated_rate : ℚ
  treated_pool : ℚ
  ctx : SharesCtx
  warnings : List Warning
  deriving DecidableEq, Repr

instance : Inhabited AllocPrefix :=
  ⟨⟨0, .prevalence, 0, 0, default, []⟩⟩

/-- Steps 1–4 of `allocateCohorts`. -/
def allocPrefix (tm : TreatmentMap) (a : Assumptions) (cfg : CohortAllocationConfig) :
    Except AllocError AllocPrefix := do
  let bp := determineBasePool a cfg
  let popv := validatePopulation (.num bp.1) "base_pool" cfg.toValidationConfig
  throwIfInvalid popv "base_pool"
  let treated_rate := a.treated_rate
  let ratev := validateRate (.num treated_rate) "treated_rate"
  throwIfInvalid ratev "treated_rate"
  let treated_pool := bp.1 * treated_rate
  let ctx ← buildShares tm a cfg
  .ok ⟨bp.1, bp.2.1, treated_rate, treated_pool, ctx, bp.2.2 ++ popv.warnings ++ ctx.warnings⟩

/-- `allocateCohorts`: the full allocation engine (steps 1–6). -/
def allocateCohorts (tm : TreatmentMap) (a : Assumptions)
    (cfg : CohortAllocationConfig) : Except AllocError CohortAllocationResult := do
  let pre ← allocPrefix tm a cfg
  let cohortLists ← mapME
    (allocatePath a cfg pre.base_pool pre.treated_rate pre.treated_pool pre.ctx)
    (uniquePaths tm)
  let leaf_cohorts := cohortLists.flatten
  let total_allocated := (leaf_cohorts.map (·.patients)).sum
  let conservation_ratio :=
    if 0 < pre.treated_pool then total_allocated / pre.treated_pool else 1
  let consW :=
    if cfg.share_sum_tolerance < |conservation_ratio - 1| then
      [Warning.conservation total_allocated pre.treated_pool]
    else []
  .ok { base_pool := pre.base_pool, base_pool_source := pre.base_pool_source,
        treated_pool := pre.treated_pool, leaf_cohorts, total_allocated,
        share_traces := pre.ctx.traces, conservation_ratio,
        warnings := pre.warnings ++ consW }

/-- The first unique path none of whose regimens has a configured share. -/
def firstPathWithoutShares (tm : TreatmentMap) (cfg : CohortAllocationConfig) :
    Option (String × PathInfo) :=
  (uniquePaths tm).find? fun kp => !(pathHasShares cfg kp.2)

/-- The multiplicative factor one dimension contributes to a path
(1 when the dimension is skipped). -/
def shareFactor (key : Option String) (m : ShareMap) : ℚ :=
  match truthyKey key with
  | some k =>
    match m.lookup k with
    | some s => s
    | none => 1
  | none => 1

/-- The product of the dimension shares applied along one path. -/
def pathWeight (ctx : SharesCtx) (p : PathInfo) : ℚ :=
  shareFactor p.subtype_key ctx.subtype * shareFactor p.setting_key ctx.setting *
    shareFactor p.line_key ctx.line

/-- Value of a successful computation, with a default for the error case. -/
def okD {ε α : Type} (e : Except ε α) (d : α) : α := e.toOption.getD d

instance : Inhabited CohortAllocationResult :=
  ⟨⟨0, .prevalence, 0, [], 0, {}, 0, []⟩⟩

/-! ## Dose / exposure calculator (`exposure.ts`) -/

/-- The two computations external to rational arithmetic: the regex-based
body of `extractMaintenanceIntervalFromNotes` for non-empty notes, and
`Math.sqrt` (used only for body-surface area).  All theorems hold for every
instantiation. -/
structure ExternalFns where
  noteMatch : String → ℚ → ℚ
  sqrt : ℚ → ℚ

/-- `extractMaintenanceIntervalFromNotes`: falsy notes (absent or empty)
keep the declared interval; otherwise the pattern matching decides. -/
def extractMaintenanceIntervalFromNotes (ext : ExternalFns) (notes : Option String)
    (declared_interval : ℚ) : ℚ :=
  match notes with
  | none => declared_interval
  | some s => if s = "" then declared_interval else ext.noteMatch s declared_interval

/-- The maintenance interval actually used: the declared `interval_days`
unless the notes inference overrides it (computed identically in
`calculateAdministeredDose` and `calculateDispensedDose`). -/
def resolvedInterval (ext : ExternalFns) (ds : DoseSchema) : ℚ :=
  extractMaintenanceIntervalFromNotes ext ds.notes ds.interval_days

/-- `String.prototype.includes`. -/
def strContains (s sub : String) : Bool := decide (sub.toList <:+: s.toList)

/-- `String.prototype.toLowerCase` (ASCII, as exercised by the unit texts). -/
def strToLower (s : String) : String := ⟨s.data.map Char.toLower⟩

/-- Type/unit mismatch self-correction of `calculateAdministeredDose`. -/
def effectiveDoseType (declared : DoseType) (unit : String) : DoseType :=
  let u := strToLower unit
  if declared = .fixed_mg ∧ strContains u "kg" then .mg_per_kg
  else if declared = .fixed_mg ∧ strContains u "m2" then .mg_per_m2
  else if declared = .mg_per_kg ∧ ¬ strContains u "kg" then .fixed_mg
  else if declared = .mg_per_m2 ∧ ¬ strContains u "m2" then .fixed_mg
  else declared

/-- Mosteller body-surface-area approximation with height fixed at 170 cm. -/
def bsaM2 (ext : ExternalFns) (weight_kg : ℚ) : ℚ :=
  ext.sqrt (170 * weight_kg / 3600)

/-- `assumptions.relative_dose_intensity || 1.0` (note `0` is falsy). -/
def rdiOf (a : Assumptions) : ℚ :=
  match a.relative_dose_intensity with
  | none => 1
  | some q => if q = 0 then 1 else q

/-- Per-administration maintenance dose by (corrected) dose type; the
`switch` default uses the maintenance value as-is. -/
def dosePerAdmin (ext : ExternalFns) (t : DoseType) (maintenance : DoseAmount)
    (weight_kg : ℚ) : ℚ :=
  match t with
  | .mg_per_kg => maintenance.value * weight_kg
  | .fixed_mg => maintenance.value
  | .mg_per_m2 => maintenance.value * bsaM2 ext weight_kg
  | .other => maintenance.value

/-- Per-administration loading dose, typed by the loading dose's own unit. -/
def loadingPerAdmin (ext : ExternalFns) (ld : LoadingDose) (weight_kg : ℚ) : ℚ :=
  let u := strToLower ld.unit
  if strContains u "kg" then ld.value * weight_kg
  else if strContains u "m2" then ld.value * bsaM2 ext weight_kg
  else ld.value

/-- First-year loading contribution
(`if (dose_schema.loading && dose_schema.loading.repeats > 0)`). -/
def loadingDoseMg (ext : ExternalFns) (ds : DoseSchema) (weight_kg : ℚ) : ℚ :=
  match ds.loading with
  | some ld =>
    match ld.repeats with
    | some rp => if 0 < rp then loadingPerAdmin ext ld weight_kg * rp else 0
    | none => 0
  | none => 0

/-- `calculateAdministeredDose`: annual administered mg per patient-year. -/
def calculateAdministeredDose (ext : ExternalFns) (treatment_node : TreatmentNode)
    (a : Assumptions) : ℚ :=
  let ds := treatment_node.dose_schema
  let interval_days := resolvedInterval ext ds
  let rdi := rdiOf a
  let weight_kg := a.avg_weight_kg.kg
  let effective_type := effectiveDoseType ds.type ds.maintenance.unit
  let dose_per_admin_mg := dosePerAdmin ext effective_type ds.maintenance weight_kg
  let maintenance_admins_per_year := 365 / interval_days
  let loading_dose_mg := loadingDoseMg ext ds weight_kg
  let maintenance_dose_mg := dose_per_admin_mg * maintenance_admins_per_year
  (loading_dose_mg + maintenance_dose_mg) * rdi

/-- Descending comparison on vial sizes (`(a, b) => b.size_mg - a.size_mg`). -/
def vialGE (a b : VialSize) : Prop := b.size_mg ≤ a.size_mg

instance : DecidableRel vialGE := fun a b =>
  inferInstanceAs (Decidable (b.size_mg ≤ a.size_mg))

instance : IsTotal VialSize vialGE := ⟨fun a b => le_total b.size_mg a.size_mg⟩

instance : IsTrans VialSize vialGE := ⟨fun _ _ _ h1 h2 => le_trans h2 h1⟩

/-- `[...vial_sizes].sort((a, b) => b.size_mg - a.size_mg)` (a stable sort;
only `size_mg` is observable downstream). -/
def sortVialsDesc (vial_sizes : List VialSize) : List VialSize :=
  List.insertionSort vialGE vial_sizes

/-- The size of the largest configured vial (head of the descending sort). -/
def largestVialSize (vial_sizes : List VialSize) : ℚ :=
  (((sortVialsDesc vial_sizes).head?).map (·.size_mg)).getD 0

/-- The inner `while (remaining_dose > 0)` loop of `roundToVials` for one
vial size, returning (remaining, total).  For a non-positive vial size and
positive remaining dose the source loop would never exit; that branch
returns the state unchanged and is unreachable for positive vial sizes. -/
def vialLoopPair (v remaining total : ℚ) : ℚ × ℚ :=
  if h1 : 0 < remaining then
    if h2 : 0 < v then vialLoopPair v (remaining - v) (total + v)
    else (remaining, total)
  else (remaining, total)
  termination_by (⌈remaining / v⌉).toNat
  decreasing_by
    have hdiv : (0 : ℚ) < remaining / v := div_pos h1 h2
    have hceil : 0 < ⌈remaining / v⌉ := Int.ceil_pos.mpr hdiv
    have heq : (remaining - v) / v = remaining / v - 1 := by
      field_simp
    rw [heq, Int.ceil_sub_one]
    exact (Int.toNat_lt_toNat hceil).mpr (by omega)

/-- The outer `for (const vial of sorted_vials)` loop with its early break. -/
def roundToVialsAux : List VialSize → ℚ → ℚ → ℚ × ℚ
  | [], r, t => (r, t)
  | v :: rest, r, t =>
    let p := vialLoopPair v.size_mg r t
    if p.1 ≤ 0 then p else roundToVialsAux rest p.1 p.2

/-- `roundToVials`: greedy rounding of a required dose to whole vials.
The trailing fallback (`total += smallest_vial.size_mg`) indexes
`sorted_vials[len - 1]`; on an empty list the source would raise a
TypeError, modelled as adding 0 (the caller guarantees non-emptiness). -/
def roundToVials (required_dose_mg : ℚ) (vial_sizes : List VialSize) : ℚ :=
  let sorted := sortVialsDesc vial_sizes
  let p := roundToVialsAux sorted required_dose_mg 0
  if 0 < p.1 then p.2 + ((sorted.getLast?).map (·.size_mg)).getD 0 else p.2

/-- `calculateDispensedDose`: round the average per-administration dose up
to whole vials; without configured vial sizes the administered dose is
passed through. -/
def calculateDispensedDose (ext : ExternalFns) (treatment_node : TreatmentNode)
    (a : Assumptions) (administered_mg_ppy : ℚ) : ℚ :=
  match a.vial_sizes.forRoute treatment_node.route with
  | none => administered_mg_ppy
  | some vial_sizes =>
    if vial_sizes.isEmpty then administered_mg_ppy
    else
      let ds := treatment_node.dose_schema
      let interval_days := resolvedInterval ext ds
      let maintenance_admins := 365 / interval_days
      let loading_admins := qOrZero (ds.loading.bind (·.repeats))
      let total_admins_per_year := maintenance_admins + loading_admins
      let dose_per_admin_mg := administered_mg_ppy / total_admins_per_year
      let dispensed_per_admin_mg := roundToVials dose_per_admin_mg vial_sizes
      dispensed_per_admin_mg * total_admins_per_year

/-- `Math.round` (half away from zero is irrelevant here: JS rounds half up,
`⌊q + 1/2⌋`). -/
def jsRound (q : ℚ) : ℚ := ((⌊q + 1 / 2⌋ : ℤ) : ℚ)

/-- `Math.round(q * 100) / 100`. -/
def round2 (q : ℚ) : ℚ := jsRound (q * 100) / 100

/-- `DemandNode`. -/
structure DemandNode where
  node_id : String
  treated_patients : ℚ
  administered_mg_per_patient_year : ℚ
  dispensed_mg_per_patient_year : ℚ
  total_administered_mg : ℚ
  total_dispensed_mg : ℚ
  deriving DecidableEq, Repr

/-- `PopulationNode`. -/
structure PopulationNode where
  node_id : String
  eligible_patients : ℚ
  treated_patients : ℚ
  patient_years : ℚ
  deriving DecidableEq, Repr

/-- Dimension roll-ups of a population allocation. -/
structure Rollups where
  by_subtype : ShareMap
  by_setting : ShareMap
  by_line : ShareMap
  deriving DecidableEq, Repr

/-- `PopulationAllocation`. -/
structure PopulationAllocation where
  base_year : ℤ
  disease : String
  molecule : String
  total_incidence : Option ℚ
  total_prevalence : Option ℚ
  nodes : List PopulationNode
  rollups : Rollups
  deriving DecidableEq, Repr

/-- `calculateDemand` of `exposure.ts`: one demand node per population node
with a matching treatment node. -/
def calculateDemand (ext : ExternalFns) (treatment_map : TreatmentMap)
    (population : PopulationAllocation) (a : Assumptions) : List DemandNode :=
  population.nodes.filterMap fun pop_node =>
    match treatment_map.nodes.find? (fun n => n.node_id == pop_node.node_id) with
    | none => none
    | some treatment_node =>
      let administered_mg_ppy := calculateAdministeredDose ext treatment_node a
      let dispensed_mg_ppy :=
        calculateDispensedDose ext treatment_node a administered_mg_ppy
      some { node_id := pop_node.node_id,
             treated_patients := jsRound pop_node.treated_patients,
             administered_mg_per_patient_year := jsRound administered_mg_ppy,
             dispensed_mg_per_patient_year := jsRound dispensed_mg_ppy,
             total_administered_mg := jsRound (administered_mg_ppy * pop_node.patient_years),
             total_dispensed_mg := jsRound (dispensed_mg_ppy * pop_node.patient_years) }

/-! ## Population allocation wrapper (`population.ts`, cohort-based) -/

/-- `mapCohortsToNodes`: match each treatment node to the leaf cohort with
the same dimension path. -/
def mapCohortsToNodes (leaf_cohorts : List LeafCohort) (tm : TreatmentMap) :
    List (String × LeafCohort) :=
  tm.nodes.filterMap fun node =>
    (leaf_cohorts.find? fun c =>
        c.path.subtype_key == node.subtype_key &&
        c.path.setting_key == node.setting_key &&
        c.path.line_key == node.line_key &&
        c.path.regimen_key == node.regimen_key).map
      fun c => (node.node_id, c)

/-- Add to one roll-up bucket (`(acc[k] || 0) + v`). -/
def addRollup (m : ShareMap) (k : String) (v : ℚ) : ShareMap :=
  if m.any (·.1 == k) then
    m.map fun kv => if kv.1 == k then (kv.1, kv.2 + v) else kv
  else m ++ [(k, v)]

/-- `allocation_trace` metadata of `PopulationAllocationWithTrace`. -/
structure AllocationTraceMeta where
  base_pool : ℚ
  base_pool_source : BasePoolSource
  treated_pool : ℚ
  conservation_ratio : ℚ
  warnings : List Warning
  deriving DecidableEq, Repr

/-- `PopulationAllocationWithTrace`. -/
structure PopulationAllocationWithTrace extends PopulationAllocation where
  allocation_trace : AllocationTraceMeta
  node_traces : List (String × List TraceStep)
  deriving DecidableEq, Repr

/-- Fold step of `allocatePopulation`'s node loop. -/
def popNodeStep (node_to_cohort : List (String × LeafCohort))
    (acc : List PopulationNode × List (String × List TraceStep) × Rollups)
    (tn : TreatmentNode) :
    List PopulationNode × List (String × List TraceStep) × Rollups :=
  let (nodes, traces, roll) := acc
  match node_to_cohort.lookup tn.node_id with
  | some cohort =>
    (nodes ++ [{ node_id := tn.node_id,
                 eligible_patients := jsRound cohort.patients,
                 treated_patients := jsRound cohort.patients,
                 patient_years := round2 cohort.patient_years }],
     traces ++ [(tn.node_id, cohort.trace)],
     { by_subtype :=
         match truthyKey tn.subtype_key with
         | some k => addRollup roll.by_subtype k cohort.patients
         | none => roll.by_subtype,
       by_setting :=
         match truthyKey tn.setting_key with
         | some k => addRollup roll.by_setting k cohort.patients
         | none => roll.by_setting,
       by_line :=
         match truthyKey tn.line_key with
         | some k => addRollup roll.by_line k cohort.patients
         | none => roll.by_line })
  | none =>
    -- no matching cohort: the node gets 0 patients, with a logger warning only
    (nodes ++ [{ node_id := tn.node_id, eligible_patients := 0,
                 treated_patients := 0, patient_years := 0 }],
     traces, roll)

/-- `allocatePopulation` (cohort-based version): run the allocator, map
cohorts onto treatment nodes, and round for presentation. -/
def allocatePopulation (tm : TreatmentMap) (a : Assumptions)
    (cfg : CohortAllocationConfig := DEFAULT_ALLOCATION_CONFIG) :
    Except AllocError PopulationAllocationWithTrace := do
  let ar ← allocateCohorts tm a cfg
  let node_to_cohort := mapCohortsToNodes ar.leaf_cohorts tm
  let (nodes, traces, roll) :=
    tm.nodes.foldl (popNodeStep node_to_cohort) ([], [], ⟨[], [], []⟩)
  .ok { base_year := a.base_year, disease := tm.disease, molecule := tm.molecule,
        total_incidence := a.incidence, total_prevalence := a.prevalence,
        nodes, rollups := roll,
        allocation_trace :=
          { base_pool := ar.base_pool, base_pool_source := ar.base_pool_source,
            treated_pool := ar.treated_pool,
            conservation_ratio := ar.conservation_ratio, warnings := ar.warnings },
        node_traces := traces }

/-! ## Forecast generator (`forecast.ts`) -/

/-- `ForecastRecord`. -/
structure ForecastRecord where
  year : ℤ
  node_id : String
  scenario : String
  treated_patients : ℚ
  patient_years : ℚ
  administered_mg_per_patient_year : ℚ
  total_administered_mg : ℚ
  total_dispensed_mg : ℚ
  deriving DecidableEq, Repr

/-- The fallback scenario map of `generateForecast`. -/
def defaultScenarios : List (String × ScenarioParameters) :=
  [("base", ⟨1 / 200, 1, 1, 1⟩)]

/-- `base_assumptions.scenarios || { base: ... }` in `Object.entries` order. -/
def scenariosOf (a : Assumptions) : List (String × ScenarioParameters) :=
  a.scenarios.getD defaultScenarios

/-- The year-`t` assumptions of one scenario: epidemiology scaled by
`(1+cagr)^t`, treated rate and time-on-treatment by the scenario
multipliers (`x ? x * s : undefined` keeps falsy inputs `undefined`). -/
def scaledAssumptions (base : Assumptions) (sc : ScenarioParameters) (t : ℕ) :
    Assumptions :=
  let epi_scale : ℚ := (1 + sc.incidence_cagr) ^ t
  { base with
    incidence :=
      if qTruthy base.incidence then base.incidence.map (· * epi_scale) else none,
    prevalence :=
      if qTruthy base.prevalence then base.prevalence.map (· * epi_scale) else none,
    treated_rate := base.treated_rate * sc.treated_rate_multiplier,
    time_on_treatment_months :=
      base.time_on_treatment_months.map fun m =>
        m.map fun kv => (kv.1, kv.2 * sc.tot_multiplier) }

/-- One (scenario, year-offset) cell of the forecast: re-run allocation and
demand on the scaled assumptions and emit one record per demand node. -/
def forecastCell (ext : ExternalFns) (tm : TreatmentMap) (base : Assumptions)
    (scenario_name : String) (sc : ScenarioParameters) (t : ℕ) :
    Except AllocError (List ForecastRecord) := do
  let year_assumptions := scaledAssumptions base sc t
  let year_population ← allocatePopulation tm year_assumptions DEFAULT_ALLOCATION_CONFIG
  let year_demand :=
    calculateDemand ext tm year_population.toPopulationAllocation year_assumptions
  .ok (year_demand.filterMap fun dn =>
    match year_population.nodes.find? (fun n => n.node_id == dn.node_id) with
    | none => none
    | some pn =>
      some { year := base.base_year + t, node_id := dn.node_id,
             scenario := scenario_name,
             treated_patients := jsRound dn.treated_patients,
             patient_years := round2 pn.patient_years,
             administered_mg_per_patient_year := jsRound dn.administered_mg_per_patient_year,
             total_administered_mg := jsRound dn.total_administered_mg,
             total_dispensed_mg := jsRound dn.total_dispensed_mg })

/-- `generateForecast`: every scenario × every year offset `0..horizon`,
concatenated (the unused `_base_population`/`_base_demand` arguments of the
source signature are omitted). -/
def generateForecast (ext : ExternalFns) (tm : TreatmentMap) (base : Assumptions) :
    Except AllocError (List ForecastRecord) := do
  let blocks ← mapME
    (fun ns => do
      let cells ← mapME (forecastCell ext tm base ns.1 ns.2)
        (List.range (base.horizon_years + 1))
      .ok cells.flatten)
    (scenariosOf base)
  .ok blocks.flatten

/-! ## Concrete fixtures used by witnesses and counterexamples -/

/-- A trivial instantiation of the external functions (identity note
parser, zero square root); theorems hold for every instantiation. -/
def extW : ExternalFns := ⟨fun _ d => d, fun _ => 0⟩

/-- A treatment node with the given id, dimension keys and regimen. -/
def nodeW (id : String) (sub set : Option String) (reg : String) : TreatmentNode :=
  { node_id := id, subtype_key := sub, setting_key := set, regimen_key := reg,
    route := .IV,
    dose_schema := { type := .mg_per_kg, maintenance := ⟨6, "mg/kg"⟩,
                     interval_days := 21 } }

/-- Minimal assumptions: prevalence 100, everything treated. -/
def aW : Assumptions :=
  { base_year := 2024, horizon_years := 0, avg_weight_kg := .single 70,
    vial_sizes := {}, prevalence := some 100, treated_rate := 1 }

/-- One pathless node. -/
def tmW1 : TreatmentMap := ⟨"d", "m", [nodeW "n1" none none "r1"]⟩

/-- Three regimens sharing one (trivial) path. -/
def tmW3 : TreatmentMap :=
  ⟨"d", "m", [nodeW "n1" none none "r1", nodeW "n2" none none "r2",
              nodeW "n3" none none "r3"]⟩

/-- The allocation prefix of `aW` on a share-free taxonomy. -/
def preW : AllocPrefix := ⟨100, .prevalence, 1, 100, ⟨[], [], [], {}, []⟩, []⟩

/-- The per-path regimen-share sums that yield exact conservation: either
the configured shares at the path sum to 1, or they are renormalized
(positive sum deviating from 1 by more than the 0.001 guard); paths with no
configured shares (equal split) always conserve. -/
def regimenSumOK (cfg : CohortAllocationConfig) (p : PathInfo) : Prop :=
  pathHasShares cfg p = true →
    (pathRegimenSum cfg p = 1 ∨
      (0 < pathRegimenSum cfg p ∧ 1 / 1000 < |pathRegimenSum cfg p - 1|))

/-- A two-path taxonomy that is not a cross product: subtype A only occurs
with setting X, and B only with Y. -/
def tmCx : TreatmentMap :=
  ⟨"d", "m", [nodeW "n1" (some "A") (some "X") "r1",
              nodeW "n2" (some "B") (some "Y") "r2"]⟩

/-- Assumptions fully covering `tmCx`'s dimension values with shares
summing exactly to 1.0 in each dimension. -/
def aCx : Assumptions :=
  { base_year := 2024, horizon_years := 0, avg_weight_kg := .single 70,
    vial_sizes := {}, prevalence := some 1000, treated_rate := 1,
    subtype_shares := some [("A", 1/2), ("B", 1/2)],
    setting_shares := some [("X", 1/2), ("Y", 1/2)] }

/-- Default configuration with the equal regimen split disabled. -/
def cfgNoSplit : CohortAllocationConfig :=
  { DEFAULT_ALLOCATION_CONFIG with allow_equal_regimen_split := false }

/-- The subtype-share validation trace of `aCx` (sum exactly 1, passed
through unchanged). -/
def trSub : ShareValidationTrace :=
  { original_shares := [("A", JNum.num (1/2)), ("B", JNum.num (1/2))], original_sum := 1,
    normalized_shares := [("A", 1/2), ("B", 1/2)], normalized := false, warning := none }

/-- The setting-share validation trace of `aCx`. -/
def trSet : ShareValidationTrace :=
  { original_shares := [("X", JNum.num (1/2)), ("Y", JNum.num (1/2))], original_sum := 1,
    normalized_shares := [("X", 1/2), ("Y", 1/2)], normalized := false, warning := none }

/-- The validated dimension shares of `aCx` over `tmCx`. -/
def ctxCx : SharesCtx :=
  ⟨[("A", 1/2), ("B", 1/2)], [("X", 1/2), ("Y", 1/2)], [],
   ⟨some trSub, some trSet, none⟩, []⟩

/-- The allocation prefix of `aCx` over `tmCx`. -/
def preCx : AllocPrefix := ⟨1000, .prevalence, 1, 1000, ctxCx, []⟩

/-- The first unique path of `tmCx`. -/
def pCxA : PathInfo := ⟨some "A", some "X", none, ["r1"]⟩

/-- The second unique path of `tmCx`. -/
def pCxB : PathInfo := ⟨some "B", some "Y", none, ["r2"]⟩

/-- Forecast fixture: incidence 100,000, one scenario with a 1% CAGR,
five-year horizon. -/
def aF : Assumptions :=
  { base_year := 2024, horizon_years := 5, avg_weight_kg := .single 70,
    vial_sizes := {}, incidence := some 100000, treated_rate := 1,
    scenarios := some [("s", ⟨1/100, 1, 1, 1⟩)] }

/-- `aF` with an empty scenario map: the forecast grid is empty. -/
def aF0 : Assumptions := { aF with scenarios := some [] }

/-! ## Theorems -/

/-- The value loop collects no errors exactly when every entry is a plain
number in `[0, 1]`. -/
theorem shareValueErrors_eq_nil (dimension : String) (shares : JShareMap) :
    shareValueErrors dimension shares = [] ↔
      ∀ kv ∈ shares, ∃ q, kv.2 = JNum.num q ∧ 0 ≤ q ∧ q ≤ 1 := by
  unfold shareValueErrors
  rw [List.flatMap_eq_nil_iff]
  constructor
  · intro h kv hkv
    have := h kv hkv
    cases hv : kv.2 with
    | nan => rw [hv] at this; simp at this
    | num q =>
      rw [hv] at this
      refine ⟨q, rfl, ?_, ?_⟩
      · by_contra hq
        simp only [not_le] at hq
        simp [hq] at this
      · by_contra hq
        simp only [not_le] at hq
        simp [hq] at this
  · intro h kv hkv
    obtain ⟨q, hq, h0, h1⟩ := h kv hkv
    rw [hq]
    simp [not_lt.mpr h0, not_lt.mpr h1]

/-- **C3** — `validateShares` reports a hard validation error
(`valid = false`) if and only if the share map is empty, or some value is
NaN, negative, or greater than 1, or the sum exceeds 1.0 by more than
`share_sum_tolerance` while renormalization is disabled or the deviation
exceeds `max_renormalization_deviation`; in every other case (including any
sum below 1.0 with all values in `[0, 1]`) it returns `valid = true`. -/
theorem validateShares_valid_iff (shares : JShareMap) (dimension_name : String)
    (config : ValidationConfig) :
    (validateShares shares dimension_name config).1.valid = false ↔
      shares = [] ∨
      (∃ kv ∈ shares, kv.2 = JNum.nan ∨ ∃ q, kv.2 = JNum.num q ∧ (q < 0 ∨ 1 < q)) ∨
      (1 < jShareSum shares ∧ config.share_sum_tolerance < jShareSum shares - 1 ∧
        (config.allow_share_renormalization = false ∨
          config.max_renormalization_deviation < jShareSum shares - 1)) := by
  unfold validateShares
  by_cases hempty : shares.isEmpty = true
  · rw [if_pos hempty]
    simp [List.isEmpty_iff.mp hempty]
  · rw [if_neg hempty]
    have hne : ¬ shares = [] := fun h => hempty (by simp [h])
    by_cases herr : (shareValueErrors dimension_name shares).isEmpty = true
    · have hgood := (shareValueErrors_eq_nil dimension_name shares).mp
        (List.isEmpty_iff.mp herr)
      have hnobad : ¬ ∃ kv ∈ shares, kv.2 = JNum.nan ∨
          ∃ q, kv.2 = JNum.num q ∧ (q < 0 ∨ 1 < q) := by
        rintro ⟨kv, hkv, hbad⟩
        obtain ⟨q, hq, h0, h1⟩ := hgood kv hkv
        rcases hbad with hnan | ⟨q', hq', hrange⟩
        · rw [hq] at hnan; exact JNum.noConfusion hnan
        · rw [hq] at hq'
          cases hq'
          rcases hrange with h | h
          · exact absurd h (not_lt.mpr h0)
          · exact absurd h (not_lt.mpr h1)
      rw [if_pos herr]
      simp only [hne, hnobad, false_or, or_false]
      set s := jShareSum shares with hs
      split_ifs with htol hgt hren hmax hra
      · -- renormalized: still valid
        obtain ⟨hr1, hr2⟩ := hren
        have habs : |s - 1| = s - 1 := abs_of_pos (by linarith)
        rw [habs] at hr2
        constructor
        · intro h; exact h.elim
        · rintro ⟨-, -, h | h⟩
          · rw [hr1] at h; exact Bool.noConfusion h
          · exact absurd hr2 (not_le.mpr h)
      · -- hard error: sum too large and not renormalizable
        have habs : |s - 1| = s - 1 := abs_of_pos (by linarith)
        rw [habs] at htol
        constructor
        · intro _
          refine ⟨hgt, htol, ?_⟩
          cases hav : config.allow_share_renormalization with
          | false => exact Or.inl rfl
          | true =>
            right
            rw [habs] at hren
            push_neg at hren
            exact hren hav
        · intro _; rfl
      · -- below 1.0, large deviation: warning only
        constructor
        · intro h; exact h.elim
        · rintro ⟨h, -⟩; exact absurd h hgt
      · -- below 1.0, small deviation, renormalized: valid
        constructor
        · intro h; exact h.elim
        · rintro ⟨h, -⟩; exact absurd h hgt
      · -- below 1.0, renormalization disabled: passed through, valid
        constructor
        · intro h; exact h.elim
        · rintro ⟨h, -⟩; exact absurd h hgt
      · -- within tolerance: valid
        constructor
        · intro h; exact h.elim
        · rintro ⟨hgt, htol2, -⟩
          exact htol (by rw [abs_of_pos (by linarith : (0:ℚ) < s - 1)]; exact htol2)
    · have hbad : ∃ kv ∈ shares, kv.2 = JNum.nan ∨
          ∃ q, kv.2 = JNum.num q ∧ (q < 0 ∨ 1 < q) := by
        by_contra hno
        apply herr
        rw [List.isEmpty_iff, shareValueErrors_eq_nil]
        intro kv hkv
        push_neg at hno
        obtain ⟨hnan, hnum⟩ := hno kv hkv
        cases hv : kv.2 with
        | nan => exact absurd hv hnan
        | num q =>
          have hr := hnum q hv
          exact ⟨q, rfl, hr.1, hr.2⟩
      rw [if_neg herr]
      exact iff_of_true rfl (Or.inr (Or.inl hbad))

theorem qSharesOf_toJShares (m : ShareMap) : qSharesOf (toJShares m) = m := by
  induction m with
  | nil => rfl
  | cons a l ih => simpa [qSharesOf, toJShares, JNum.toQ] using ih

theorem jShareSum_toJShares (m : ShareMap) : jShareSum (toJShares m) = mapSum m := by
  rw [jShareSum, qSharesOf_toJShares]

theorem shareValueErrors_toJShares (dim : String) (m : ShareMap)
    (h : ∀ kv ∈ m, 0 ≤ kv.2 ∧ kv.2 ≤ 1) :
    shareValueErrors dim (toJShares m) = [] := by
  rw [shareValueErrors_eq_nil]
  intro kv hkv
  obtain ⟨kv', hkv', rfl⟩ := List.mem_map.mp hkv
  exact ⟨kv'.2, rfl, (h kv' hkv').1, (h kv' hkv').2⟩

theorem toJShares_ne_nil {m : ShareMap} (h : m ≠ []) :
    ¬ (toJShares m).isEmpty = true := by
  cases m with
  | nil => exact absurd rfl h
  | cons a l => simp [toJShares]

/-- Evaluation of `validateShares` in the upward-renormalization branch. -/
theorem validateShares_of_renorm (shares : ShareMap) (dim : String)
    (cfg : ValidationConfig)
    (hvals : ∀ kv ∈ shares, 0 ≤ kv.2 ∧ kv.2 ≤ 1) (hne : shares ≠ [])
    (htol : cfg.share_sum_tolerance < |mapSum shares - 1|)
    (hgt : 1 < mapSum shares)
    (hallow : cfg.allow_share_renormalization = true)
    (hdev : |mapSum shares - 1| ≤ cfg.max_renormalization_deviation) :
    (validateShares (toJShares shares) dim cfg).1 =
      { valid := true, errors := [],
        warnings := [.renormalized dim (mapSum shares)],
        normalized_value := some (shares.map fun kv => (kv.1, kv.2 / mapSum shares)) } := by
  unfold validateShares
  rw [if_neg (toJShares_ne_nil hne)]
  have herr : (shareValueErrors dim (toJShares shares)).isEmpty = true := by
    rw [shareValueErrors_toJShares dim shares hvals]; rfl
  rw [if_pos herr]
  simp only [jShareSum_toJShares, qSharesOf_toJShares]
  rw [if_pos htol, if_pos hgt, if_pos ⟨hallow, hdev⟩]

/-- Evaluation of `validateShares` in the hard-error (sum too large) branch. -/
theorem validateShares_of_excess (shares : ShareMap) (dim : String)
    (cfg : ValidationConfig)
    (hvals : ∀ kv ∈ shares, 0 ≤ kv.2 ∧ kv.2 ≤ 1) (hne : shares ≠ [])
    (htol : cfg.share_sum_tolerance < |mapSum shares - 1|)
    (hgt : 1 < mapSum shares)
    (hdev : ¬ (cfg.allow_share_renormalization = true ∧
      |mapSum shares - 1| ≤ cfg.max_renormalization_deviation)) :
    (validateShares (toJShares shares) dim cfg).1 =
      { valid := false, errors := [.sumOutOfRange dim (mapSum shares)], warnings := [] } := by
  unfold validateShares
  rw [if_neg (toJShares_ne_nil hne)]
  have herr : (shareValueErrors dim (toJShares shares)).isEmpty = true := by
    rw [shareValueErrors_toJShares dim shares hvals]; rfl
  rw [if_pos herr]
  simp only [jShareSum_toJShares, qSharesOf_toJShares]
  rw [if_pos htol, if_pos hgt, if_neg hdev]

/-- **C4** — with all values in `[0, 1]`, `share_sum_tolerance < 0.10`,
`max_renormalization_deviation = 0.15` and renormalization enabled: a map
summing to 1.10 is accepted with each value divided by 1.10 and a warning
naming the dimension, while a map summing to 1.6 is a hard validation
error. -/
theorem validateShares_renormalization_policy :
    (∀ (shares : ShareMap) (dim : String) (cfg : ValidationConfig),
      (∀ kv ∈ shares, 0 ≤ kv.2 ∧ kv.2 ≤ 1) → mapSum shares = 11 / 10 →
      cfg.share_sum_tolerance < 1 / 10 →
      cfg.max_renormalization_deviation = 3 / 20 →
      cfg.allow_share_renormalization = true →
      (validateShares (toJShares shares) dim cfg).1.valid = true ∧
      (validateShares (toJShares shares) dim cfg).1.normalized_value =
        some (shares.map fun kv => (kv.1, kv.2 / (11 / 10))) ∧
      Warning.renormalized dim (11 / 10) ∈
        (validateShares (toJShares shares) dim cfg).1.warnings) ∧
    (∀ (shares : ShareMap) (dim : String) (cfg : ValidationConfig),
      (∀ kv ∈ shares, 0 ≤ kv.2 ∧ kv.2 ≤ 1) → mapSum shares = 8 / 5 →
      cfg.share_sum_tolerance < 1 / 10 →
      cfg.max_renormalization_deviation = 3 / 20 →
      cfg.allow_share_renormalization = true →
      (validateShares (toJShares shares) dim cfg).1.valid = false) := by
  constructor
  · intro shares dim cfg hvals hsum htol hmax hallow
    have hne : shares ≠ [] := by
      intro h; rw [h] at hsum; norm_num [mapSum] at hsum
    have habs : |mapSum shares - 1| = 1 / 10 := by rw [hsum]; norm_num
    have h := validateShares_of_renorm shares dim cfg hvals hne
      (by rw [habs]; exact htol) (by rw [hsum]; norm_num) hallow
      (by rw [habs, hmax]; norm_num)
    rw [h, hsum]
    refine ⟨rfl, rfl, ?_⟩
    exact List.mem_singleton.mpr rfl
  · intro shares dim cfg hvals hsum htol hmax hallow
    have hne : shares ≠ [] := by
      intro h; rw [h] at hsum; norm_num [mapSum] at hsum
    have habs : |mapSum shares - 1| = 3 / 5 := by rw [hsum]; norm_num
    have h := validateShares_of_excess shares dim cfg hvals hne
      (by rw [habs]; linarith) (by rw [hsum]; norm_num)
      (by rw [habs, hmax]; rintro ⟨-, h⟩; norm_num at h)
    rw [h]

/-- Witness for C4: `{a: 0.6, b: 0.5}` (sum 1.10) is renormalized with a
warning under the default configuration, `{a: 0.8, b: 0.8}` (sum 1.6) is
rejected. -/
theorem validateShares_renormalization_policy_witness :
    (validateShares (toJShares [("a", 3/5), ("b", 1/2)]) "setting_shares"
      DEFAULT_VALIDATION_CONFIG).1.valid = true ∧
    (validateShares (toJShares [("a", 3/5), ("b", 1/2)]) "setting_shares"
      DEFAULT_VALIDATION_CONFIG).1.normalized_value =
      some ([("a", (3:ℚ)/5), ("b", 1/2)].map fun kv => (kv.1, kv.2 / (11 / 10))) ∧
    Warning.renormalized "setting_shares" (11 / 10) ∈
      (validateShares (toJShares [("a", 3/5), ("b", 1/2)]) "setting_shares"
        DEFAULT_VALIDATION_CONFIG).1.warnings ∧
    (validateShares (toJShares [("a", 4/5), ("b", 4/5)]) "setting_shares"
      DEFAULT_VALIDATION_CONFIG).1.valid = false := by
  have h1 := validateShares_renormalization_policy.1 [("a", 3/5), ("b", 1/2)]
    "setting_shares" DEFAULT_VALIDATION_CONFIG
    (by norm_num [List.forall_mem_cons]) (by norm_num [mapSum])
    (by norm_num [DEFAULT_VALIDATION_CONFIG])
    (by norm_num [DEFAULT_VALIDATION_CONFIG]) rfl
  have h2 := validateShares_renormalization_policy.2 [("a", 4/5), ("b", 4/5)]
    "setting_shares" DEFAULT_VALIDATION_CONFIG
    (by norm_num [List.forall_mem_cons]) (by norm_num [mapSum])
    (by norm_num [DEFAULT_VALIDATION_CONFIG])
    (by norm_num [DEFAULT_VALIDATION_CONFIG]) rfl
  exact ⟨h1.1, h1.2.1, h1.2.2, h2⟩

/-- Closed form of the inner vial loop: with a positive vial size `v` and a
positive remaining dose `r` it adds `⌈r/v⌉` vials. -/
theorem vialLoopPair_eq (v : ℚ) (hv : 0 < v) :
    ∀ (n : ℕ) (r t : ℚ), (⌈r / v⌉).toNat = n → 0 < r →
      vialLoopPair v r t = (r - ⌈r / v⌉ * v, t + ⌈r / v⌉ * v) := by
  intro n
  induction n using Nat.strong_induction_on with
  | _ n ih =>
    intro r t hn hr
    rw [vialLoopPair, dif_pos hr, dif_pos hv]
    by_cases hrv : 0 < r - v
    · have hdd : (r - v) / v = r / v - 1 := by field_simp
      have hceil : ⌈(r - v) / v⌉ = ⌈r / v⌉ - 1 := by rw [hdd, Int.ceil_sub_one]
      have hpos : 0 < ⌈r / v⌉ := Int.ceil_pos.mpr (div_pos hr hv)
      have hlt : (⌈(r - v) / v⌉).toNat < n := by
        rw [hceil, ← hn]; omega
      rw [ih _ hlt (r - v) (t + v) rfl hrv, hceil]
      simp only [Prod.mk.injEq]
      constructor <;> (push_cast; ring)
    · rw [vialLoopPair, dif_neg hrv]
      have h1 : ⌈r / v⌉ = 1 := by
        rw [Int.ceil_eq_iff]
        refine ⟨by push_cast; simpa using div_pos hr hv, ?_⟩
        push_cast
        rw [div_le_one hv]
        linarith [not_lt.mp hrv]
      rw [h1]
      simp only [Prod.mk.injEq]
      constructor <;> (push_cast; ring)

/-- A non-positive required dose dispenses nothing. -/
theorem roundToVials_of_nonpos (required : ℚ) (vials : List VialSize)
    (h : required ≤ 0) : roundToVials required vials = 0 := by
  unfold roundToVials
  cases hs : sortVialsDesc vials with
  | nil =>
    simp only [roundToVialsAux]
    rw [if_neg (not_lt.mpr h)]
  | cons v rest =>
    have hl : vialLoopPair v.size_mg required 0 = (required, 0) := by
      rw [vialLoopPair, dif_neg (not_lt.mpr h)]
    simp only [roundToVialsAux, hl]
    rw [if_pos h, if_neg (not_lt.mpr h)]

/-- Evaluation of `roundToVials` for a positive dose: only the largest vial
(the head of the descending sort) is ever used. -/
theorem roundToVials_eval (required : ℚ) (vials : List VialSize)
    (hreq : 0 < required) (v : VialSize) (rest : List VialSize)
    (hs : sortVialsDesc vials = v :: rest) (hv : 0 < v.size_mg) :
    roundToVials required vials = (⌈required / v.size_mg⌉ : ℚ) * v.size_mg := by
  have hloop := vialLoopPair_eq v.size_mg hv _ required 0 rfl hreq
  have hk : required ≤ (⌈required / v.size_mg⌉ : ℚ) * v.size_mg :=
    (div_le_iff hv).mp (Int.le_ceil _)
  unfold roundToVials
  rw [hs]
  simp only [roundToVialsAux, hloop]
  rw [if_pos (by linarith :
        required - (⌈required / v.size_mg⌉ : ℚ) * v.size_mg ≤ 0),
      if_neg (by push_neg; linarith :
        ¬ (0 : ℚ) < required - (⌈required / v.size_mg⌉ : ℚ) * v.size_mg)]
  ring

/-- **C2** — for a strictly positive required dose and a non-empty list of
(positive) vial sizes, `roundToVials` returns the smallest positive integer
multiple of the single largest configured vial size that covers the
required dose, and never mixes smaller vial sizes. -/
theorem roundToVials_single_largest_vial (required : ℚ) (vials : List VialSize)
    (hreq : 0 < required) (hpos : ∀ w ∈ vials, 0 < w.size_mg) (hne : vials ≠ []) :
    roundToVials required vials =
      (⌈required / largestVialSize vials⌉ : ℚ) * largestVialSize vials ∧
    1 ≤ ⌈required / largestVialSize vials⌉ ∧
    required ≤ roundToVials required vials ∧
    (∀ m : ℤ, required ≤ (m : ℚ) * largestVialSize vials →
      ⌈required / largestVialSize vials⌉ ≤ m) ∧
    (∀ w ∈ vials, w.size_mg ≤ largestVialSize vials) := by
  have hperm : List.Perm (sortVialsDesc vials) vials := List.perm_insertionSort vialGE vials
  cases hs : sortVialsDesc vials with
  | nil =>
    rw [hs] at hperm
    exact absurd hperm.symm.eq_nil hne
  | cons v rest =>
    have hvmem : v ∈ vials := hperm.subset (hs ▸ List.mem_cons_self v rest)
    have hv : 0 < v.size_mg := hpos v hvmem
    have hL : largestVialSize vials = v.size_mg := by
      simp [largestVialSize, hs]
    have hmax : ∀ w ∈ vials, w.size_mg ≤ v.size_mg := by
      intro w hw
      have hw' : w ∈ sortVialsDesc vials := hperm.mem_iff.mpr hw
      rw [hs] at hw'
      rcases List.mem_cons.mp hw' with rfl | hw''
      · exact le_refl _
      · have hsorted : List.Sorted vialGE (sortVialsDesc vials) :=
          List.sorted_insertionSort vialGE vials
        rw [hs] at hsorted
        exact List.rel_of_sorted_cons hsorted w hw''
    have heval := roundToVials_eval required vials hreq v rest hs hv
    rw [hL]
    refine ⟨heval, ?_, ?_, ?_, fun w hw => hL ▸ hmax w hw⟩
    · have := Int.ceil_pos.mpr (div_pos hreq hv)
      omega
    · rw [heval]
      exact (div_le_iff hv).mp (Int.le_ceil _)
    · intro m hm
      exact Int.ceil_le.mpr ((div_le_iff hv).mpr hm)

/-- Witness for C2: a 390 mg dose with {420, 150} mg vials dispenses exactly
420 mg (not 390, not a 150-mg combination). -/
theorem roundToVials_single_largest_vial_witness :
    roundToVials 390 [⟨420, true⟩, ⟨150, true⟩] = 420 ∧ (420 : ℚ) ≠ 390 := by
  have h := roundToVials_single_largest_vial 390 [⟨420, true⟩, ⟨150, true⟩]
    (by norm_num) (by norm_num [List.forall_mem_cons]) (by simp)
  have hL : largestVialSize [⟨420, true⟩, ⟨150, true⟩] = 420 := by
    norm_num [largestVialSize, sortVialsDesc, List.insertionSort, List.orderedInsert, vialGE]
  have h1 := h.1
  rw [hL] at h1
  have hceil : ⌈(390 : ℚ) / 420⌉ = 1 := by
    rw [Int.ceil_eq_iff] <;> norm_num
  rw [hceil] at h1
  norm_num at h1
  exact ⟨h1, by norm_num⟩

/-- **C6** — for a `mg_per_kg` schema whose maintenance unit contains "kg",
with no loading dose and notes triggering no interval override,
`calculateAdministeredDose` returns
`maintenance.value × avg_weight_kg × (365 / interval_days) × RDI`. -/
theorem calculateAdministeredDose_mg_per_kg (ext : ExternalFns)
    (node : TreatmentNode) (a : Assumptions)
    (htype : node.dose_schema.type = .mg_per_kg)
    (hunit : strContains (strToLower node.dose_schema.maintenance.unit) "kg" = true)
    (hload : node.dose_schema.loading = none)
    (hnotes : resolvedInterval ext node.dose_schema = node.dose_schema.interval_days) :
    calculateAdministeredDose ext node a =
      node.dose_schema.maintenance.value * a.avg_weight_kg.kg *
        (365 / node.dose_schema.interval_days) * rdiOf a := by
  have heff : effectiveDoseType node.dose_schema.type node.dose_schema.maintenance.unit
      = .mg_per_kg := by
    simp [effectiveDoseType, htype, hunit]
  simp only [calculateAdministeredDose]
  rw [hnotes, heff]
  simp only [dosePerAdmin, loadingDoseMg, hload]
  ring

/-- Witness for C6: maintenance 6 mg/kg, 70 kg, every 21 days, RDI 1 gives a
420 mg administration and an annual administered dose of exactly 7300 mg. -/
theorem calculateAdministeredDose_mg_per_kg_witness :
    (({ node_id := "n", regimen_key := "r", route := .IV,
        dose_schema := { type := .mg_per_kg, maintenance := ⟨6, "mg/kg"⟩,
                         interval_days := 21 } } : TreatmentNode).dose_schema.maintenance.value *
      (AvgWeight.single 70).kg = 420) ∧
    calculateAdministeredDose ⟨fun _ d => d, fun _ => 0⟩
      { node_id := "n", regimen_key := "r", route := .IV,
        dose_schema := { type := .mg_per_kg, maintenance := ⟨6, "mg/kg"⟩,
                         interval_days := 21 } }
      { base_year := 2024, horizon_years := 0, avg_weight_kg := .single 70,
        vial_sizes := {}, treated_rate := 1,
        relative_dose_intensity := some 1 } = 7300 := by
  constructor
  · norm_num [AvgWeight.kg]
  · have h := calculateAdministeredDose_mg_per_kg ⟨fun _ d => d, fun _ => 0⟩
      { node_id := "n", regimen_key := "r", route := .IV,
        dose_schema := { type := .mg_per_kg, maintenance := ⟨6, "mg/kg"⟩,
                         interval_days := 21 } }
      { base_year := 2024, horizon_years := 0, avg_weight_kg := .single 70,
        vial_sizes := {}, treated_rate := 1,
        relative_dose_intensity := some 1 }
      rfl (by decide) rfl rfl
    rw [h]
    norm_num [AvgWeight.kg, rdiOf]

/-- **C9** — the embedded allocation, demand, and forecast computations are
pure functions: two invocations on identical inputs give identical outputs
(no hidden randomness or mutable global state exists in the embedding). -/
theorem pipeline_deterministic (ext : ExternalFns) (tm : TreatmentMap)
    (a : Assumptions) (cfg : CohortAllocationConfig)
    (population : PopulationAllocation) :
    allocateCohorts tm a cfg = allocateCohorts tm a cfg ∧
    calculateDemand ext tm population a = calculateDemand ext tm population a ∧
    generateForecast ext tm a = generateForecast ext tm a :=
  ⟨rfl, rfl, rfl⟩

/-- `roundToVials` never rounds below the required dose when every
configured vial size is positive. -/
theorem roundToVials_ge (x : ℚ) (vials : List VialSize)
    (hne : vials ≠ []) (hpos : ∀ w ∈ vials, 0 < w.size_mg) :
    x ≤ roundToVials x vials := by
  by_cases hx : 0 < x
  · exact (roundToVials_single_largest_vial x vials hx hpos hne).2.2.1
  · rw [roundToVials_of_nonpos x vials (not_lt.mp hx)]
    exact not_lt.mp hx

/-- `Math.round` is monotone. -/
theorem jsRound_mono {x y : ℚ} (h : x ≤ y) : jsRound x ≤ jsRound y := by
  unfold jsRound
  exact_mod_cast Int.floor_le_floor (by linarith)

/-- **C10** — vial rounding never reduces demand: without configured vial
sizes for the route the dispensed dose equals the administered dose
exactly; with a non-empty (positive) vial list and a positive resolved
interval it is at least the administered dose; hence every `DemandNode` has
`total_administered_mg ≤ total_dispensed_mg` when patient-years are
non-negative. -/
theorem dispensed_ge_administered :
    (∀ (ext : ExternalFns) (node : TreatmentNode) (a : Assumptions) (adm : ℚ),
      (a.vial_sizes.forRoute node.route).getD [] = [] →
      calculateDispensedDose ext node a adm = adm) ∧
    (∀ (ext : ExternalFns) (node : TreatmentNode) (a : Assumptions) (adm : ℚ)
      (vials : List VialSize),
      a.vial_sizes.forRoute node.route = some vials → vials ≠ [] →
      (∀ w ∈ vials, 0 < w.size_mg) →
      0 < resolvedInterval ext node.dose_schema →
      0 ≤ qOrZero (node.dose_schema.loading.bind (·.repeats)) →
      adm ≤ calculateDispensedDose ext node a adm) ∧
    (∀ (ext : ExternalFns) (tm : TreatmentMap) (pop : PopulationAllocation)
      (a : Assumptions),
      (∀ tn ∈ tm.nodes, 0 < resolvedInterval ext tn.dose_schema ∧
        0 ≤ qOrZero (tn.dose_schema.loading.bind (·.repeats)) ∧
        ∀ vials, a.vial_sizes.forRoute tn.route = some vials →
          ∀ w ∈ vials, 0 < w.size_mg) →
      (∀ pn ∈ pop.nodes, 0 ≤ pn.patient_years) →
      ∀ d ∈ calculateDemand ext tm pop a,
        d.total_administered_mg ≤ d.total_dispensed_mg) := by
  have hpass : ∀ (ext : ExternalFns) (node : TreatmentNode) (a : Assumptions) (adm : ℚ),
      (a.vial_sizes.forRoute node.route).getD [] = [] →
      calculateDispensedDose ext node a adm = adm := by
    intro ext node a adm hroute
    unfold calculateDispensedDose
    cases hv : a.vial_sizes.forRoute node.route with
    | none => rfl
    | some vials =>
      rw [hv] at hroute
      simp only [Option.getD] at hroute
      dsimp only
      rw [if_pos (by rw [hroute]; rfl : vials.isEmpty = true)]
  have hge : ∀ (ext : ExternalFns) (node : TreatmentNode) (a : Assumptions) (adm : ℚ)
      (vials : List VialSize),
      a.vial_sizes.forRoute node.route = some vials → vials ≠ [] →
      (∀ w ∈ vials, 0 < w.size_mg) →
      0 < resolvedInterval ext node.dose_schema →
      0 ≤ qOrZero (node.dose_schema.loading.bind (·.repeats)) →
      adm ≤ calculateDispensedDose ext node a adm := by
    intro ext node a adm vials hv hne hpos hint hload
    unfold calculateDispensedDose
    rw [hv]
    dsimp only
    rw [if_neg (by simpa [List.isEmpty_iff] using hne)]
    have hN : 0 < 365 / resolvedInterval ext node.dose_schema +
        qOrZero (node.dose_schema.loading.bind (·.repeats)) := by
      have : (0 : ℚ) < 365 / resolvedInterval ext node.dose_schema :=
        div_pos (by norm_num) hint
      linarith
    set N := 365 / resolvedInterval ext node.dose_schema +
        qOrZero (node.dose_schema.loading.bind (·.repeats)) with hNdef
    have hround : adm / N ≤ roundToVials (adm / N) vials :=
      roundToVials_ge (adm / N) vials hne hpos
    calc adm = adm / N * N := by field_simp
    _ ≤ roundToVials (adm / N) vials * N :=
        mul_le_mul_of_nonneg_right hround (le_of_lt hN)
  refine ⟨hpass, hge, ?_⟩
  intro ext tm pop a htm hpop d hd
  obtain ⟨pn, hpn, hmk⟩ := List.mem_filterMap.mp hd
  cases hfind : tm.nodes.find? (fun n => n.node_id == pn.node_id) with
  | none => rw [hfind] at hmk; exact absurd hmk (by simp)
  | some tn =>
    rw [hfind] at hmk
    have htn : tn ∈ tm.nodes := List.mem_of_find?_eq_some hfind
    obtain ⟨hint, hload, hvials⟩ := htm tn htn
    have hpy : 0 ≤ pn.patient_years := hpop pn hpn
    have hle : calculateAdministeredDose ext tn a ≤
        calculateDispensedDose ext tn a (calculateAdministeredDose ext tn a) := by
      cases hv : a.vial_sizes.forRoute tn.route with
      | none => rw [hpass ext tn a _ (by rw [hv]; rfl)]
      | some vials =>
        cases hvn : vials with
        | nil =>
          rw [hpass ext tn a _ (by rw [hv, hvn]; rfl)]
        | cons w rest =>
          exact hge ext tn a _ vials hv (by rw [hvn]; simp)
            (hvials vials hv) hint hload
    have hd' : d =
        { node_id := pn.node_id,
          treated_patients := jsRound pn.treated_patients,
          administered_mg_per_patient_year := jsRound (calculateAdministeredDose ext tn a),
          dispensed_mg_per_patient_year :=
            jsRound (calculateDispensedDose ext tn a (calculateAdministeredDose ext tn a)),
          total_administered_mg :=
            jsRound (calculateAdministeredDose ext tn a * pn.patient_years),
          total_dispensed_mg :=
            jsRound (calculateDispensedDose ext tn a (calculateAdministeredDose ext tn a) *
              pn.patient_years) } := by
      simpa using hmk.symm
    rw [hd']
    exact jsRound_mono (mul_le_mul_of_nonneg_right hle hpy)

/-- Witness for C10: a PO node (no vial sizes) passes the dose through; an
IV node with {420, 150} mg vials dispenses at least the administered
7300 mg; the demand node of a one-node map satisfies the total
inequality. -/
theorem dispensed_ge_administered_witness :
    calculateDispensedDose ⟨fun _ d => d, fun _ => 0⟩
      { node_id := "n", regimen_key := "r", route := .PO,
        dose_schema := { type := .fixed_mg, maintenance := ⟨100, "mg"⟩,
                         interval_days := 30 } }
      { base_year := 2024, horizon_years := 0, avg_weight_kg := .single 70,
        vial_sizes := { IV := some [⟨420, true⟩, ⟨150, true⟩] }, treated_rate := 1 }
      12345 = 12345 ∧
    (7300 : ℚ) ≤ calculateDispensedDose ⟨fun _ d => d, fun _ => 0⟩
      { node_id := "n", regimen_key := "r", route := .IV,
        dose_schema := { type := .mg_per_kg, maintenance := ⟨6, "mg/kg"⟩,
                         interval_days := 21 } }
      { base_year := 2024, horizon_years := 0, avg_weight_kg := .single 70,
        vial_sizes := { IV := some [⟨420, true⟩, ⟨150, true⟩] }, treated_rate := 1 }
      7300 ∧
    ((calculateDemand ⟨fun _ d => d, fun _ => 0⟩
        ⟨"d", "m", [{ node_id := "n", regimen_key := "r", route := .IV,
                      dose_schema := { type := .mg_per_kg,
                                       maintenance := ⟨6, "mg/kg"⟩,
                                       interval_days := 21 } }]⟩
        { base_year := 2024, disease := "d", molecule := "m",
          total_incidence := none, total_prevalence := none,
          nodes := [⟨"n", 100, 100, 100⟩], rollups := ⟨[], [], []⟩ }
        { base_year := 2024, horizon_years := 0, avg_weight_kg := .single 70,
          vial_sizes := { IV := some [⟨420, true⟩, ⟨150, true⟩] },
          treated_rate := 1 }).all
      fun d => decide (d.total_administered_mg ≤ d.total_dispensed_mg)) = true := by
  refine ⟨?_, ?_, ?_⟩
  · exact dispensed_ge_administered.1 _ _ _ 12345 rfl
  · exact dispensed_ge_administered.2.1 _ _ _ 7300 [⟨420, true⟩, ⟨150, true⟩]
      rfl (by simp) (by norm_num [List.forall_mem_cons])
      (by norm_num [resolvedInterval, extractMaintenanceIntervalFromNotes])
      (by norm_num [qOrZero])
  · apply List.all_eq_true.mpr
    intro d hd
    refine decide_eq_true (dispensed_ge_administered.2.2 _ _ _ _ ?_ ?_ d hd)
    · intro tn htn
      rcases List.mem_singleton.mp htn with rfl
      refine ⟨by norm_num [resolvedInterval, extractMaintenanceIntervalFromNotes],
        by norm_num [qOrZero], ?_⟩
      intro vials hv
      simp only [VialSizes.forRoute] at hv
      obtain rfl := Option.some_injective _ hv.symm
      norm_num [List.forall_mem_cons]
    · intro pn hpn
      rcases List.mem_singleton.mp hpn with rfl
      norm_num

theorem ok_bind {ε α β : Type} (a : α) (f : α → Except ε β) :
    ((Except.ok a : Except ε α) >>= f) = f a := rfl

theorem error_bind {ε α β : Type} (e : ε) (f : α → Except ε β) :
    ((Except.error e : Except ε α) >>= f) = .error e := rfl

theorem exceptBind_ok {ε α β : Type} {x : Except ε α} {f : α → Except ε β} {b : β}
    (h : (x >>= f) = .ok b) : ∃ a, x = .ok a ∧ f a = .ok b := by
  cases x with
  | error e => rw [error_bind] at h; exact absurd h (by simp)
  | ok a => exact ⟨a, rfl, by rwa [ok_bind] at h⟩

theorem mapME_ok_mem {α β ε : Type} (f : α → Except ε β) :
    ∀ (l : List α) (ys : List β), mapME f l = .ok ys →
      ∀ x ∈ l, ∃ y, f x = .ok y ∧ y ∈ ys := by
  intro l
  induction l with
  | nil => intro ys _ x hx; exact absurd hx (List.not_mem_nil x)
  | cons a t ih =>
    intro ys h x hx
    rw [mapME] at h
    obtain ⟨b, hb, h2⟩ := exceptBind_ok h
    obtain ⟨bs, hbs, h3⟩ := exceptBind_ok h2
    injection h3 with h4
    rcases List.mem_cons.mp hx with rfl | hxt
    · exact ⟨b, hb, h4 ▸ List.mem_cons_self b bs⟩
    · obtain ⟨y, hy, hymem⟩ := ih bs hbs x hxt
      exact ⟨y, hy, h4 ▸ List.mem_cons_of_mem b hymem⟩

theorem mapME_error_of_find {α β ε : Type} (f : α → Except ε β) (p : α → Bool)
    (g : α → ε)
    (hgood : ∀ x, p x = false → ∃ y, f x = .ok y)
    (hbad : ∀ x, p x = true → f x = .error (g x)) :
    ∀ (l : List α) (x₀ : α), l.find? p = some x₀ → mapME f l = .error (g x₀) := by
  intro l
  induction l with
  | nil => intro x₀ h; simp at h
  | cons a t ih =>
    intro x₀ h
    cases hpa : p a with
    | true =>
      rw [List.find?_cons_of_pos _ hpa] at h
      injection h with h'
      subst h'
      rw [mapME, hbad a hpa]
      rfl
    | false =>
      rw [List.find?_cons_of_neg _ (by simp [hpa])] at h
      obtain ⟨y, hy⟩ := hgood a hpa
      rw [mapME, hy, ok_bind, ih x₀ h]
      rfl

theorem applyShare_fst (stepName : String) (key : Option String) (m : ShareMap)
    (normFlag : Option Bool) (pop : ℚ) :
    (applyShare stepName key m normFlag pop).1 = pop * shareFactor key m := by
  unfold applyShare shareFactor
  cases htk : truthyKey key with
  | none => simp [htk]
  | some k =>
    cases hlk : m.lookup k with
    | none => simp [htk, hlk]
    | some s => simp [htk, hlk]

theorem lookup_map_self (f : String → ℚ) :
    ∀ (l : List String) (x : String), x ∈ l →
      (l.map fun r => (r, f r)).lookup x = some (f x) := by
  intro l
  induction l with
  | nil => intro x hx; exact absurd hx (List.not_mem_nil x)
  | cons a t ih =>
    intro x hx
    by_cases hxa : x = a
    · subst hxa; simp [List.lookup]
    · rcases List.mem_cons.mp hx with h | h
      · exact absurd h hxa
      · have hbeq : (x == a) = false := beq_eq_false_iff_ne.mpr hxa
        rw [List.map_cons]
        simp only [List.lookup, hbeq]
        exact ih x h

theorem allocatePath_noShares_noSplit (a : Assumptions) (cfg : CohortAllocationConfig)
    (bp tr tp : ℚ) (ctx : SharesCtx) (kp : String × PathInfo)
    (hn : pathHasShares cfg kp.2 = false)
    (hs : cfg.allow_equal_regimen_split = false) :
    allocatePath a cfg bp tr tp ctx kp = .error (.noRegimenShares kp.1) := by
  unfold allocatePath
  rw [if_pos]
  constructor
  · rw [hn]; exact Bool.false_ne_true
  · rw [hs]; exact Bool.false_ne_true

theorem allocatePath_ok_shape (a : Assumptions) (cfg : CohortAllocationConfig)
    (bp tr tp : ℚ) (ctx : SharesCtx) (kp : String × PathInfo)
    (h : ¬ (¬ pathHasShares cfg kp.2 = true ∧ ¬ cfg.allow_equal_regimen_split = true)) :
    ∃ y, allocatePath a cfg bp tr tp ctx kp = .ok y := by
  unfold allocatePath
  rw [if_neg h]
  exact ⟨_, rfl⟩

theorem allocatePath_equal_split (a : Assumptions) (cfg : CohortAllocationConfig)
    (bp tr tp : ℚ) (ctx : SharesCtx) (k : String) (p : PathInfo)
    (y : List LeafCohort)
    (hn : pathHasShares cfg p = false)
    (hy : allocatePath a cfg bp tr tp ctx (k, p) = .ok y) :
    ∀ reg ∈ p.regimen_keys, ∃ c ∈ y,
      c.path = ⟨p.subtype_key, p.setting_key, p.line_key, reg⟩ ∧
      c.patients = tp * pathWeight ctx p * (1 / (p.regimen_keys.length : ℚ)) := by
  intro reg hreg
  by_cases hcond : (¬ pathHasShares cfg (k, p).2 = true ∧
      ¬ cfg.allow_equal_regimen_split = true)
  · rw [allocatePath_noShares_noSplit a cfg bp tr tp ctx (k, p) hn
      (Bool.not_eq_true _ ▸ hcond.2)] at hy
    exact absurd hy (by simp)
  · unfold allocatePath at hy
    rw [if_neg hcond] at hy
    injection hy with hy'
    subst hy'
    refine ⟨_, List.mem_map_of_mem _ hreg, rfl, ?_⟩
    have hbuild : (buildPathRegimenShares cfg (k, p).1 (k, p).2
        (applyShare "line_allocation" (k, p).2.line_key ctx.line
          (ctx.traces.line_shares.map (·.normalized))
          (applyShare "setting_allocation" (k, p).2.setting_key ctx.setting
            (ctx.traces.setting_shares.map (·.normalized))
            (applyShare "subtype_allocation" (k, p).2.subtype_key ctx.subtype
              (ctx.traces.subtype_shares.map (·.normalized)) tp).1).1).1).1 =
        p.regimen_keys.map fun r => (r, 1 / (p.regimen_keys.length : ℚ)) := by
      unfold buildPathRegimenShares
      rw [if_neg (by rw [show (k, p).2 = p from rfl, hn]; exact Bool.false_ne_true)]
    dsimp only
    rw [hbuild, lookup_map_self _ p.regimen_keys reg hreg]
    simp only [qOrZero, Option.getD, applyShare_fst]
    unfold pathWeight
    ring

/-- **C5** — when no regimen on a dimension path has a configured share:
with `allow_equal_regimen_split = false` the allocation fails with an error
naming the (first) offending path; with the split allowed and the
allocation succeeding, every one of the path's `n` regimens receives
exactly `1/n` of the path's population. -/
theorem regimen_share_fallback :
    (∀ (tm : TreatmentMap) (a : Assumptions) (cfg : CohortAllocationConfig)
      (pre : AllocPrefix) (k : String) (p : PathInfo),
      allocPrefix tm a cfg = .ok pre →
      firstPathWithoutShares tm cfg = some (k, p) →
      cfg.allow_equal_regimen_split = false →
      (k, p) ∈ uniquePaths tm ∧ pathHasShares cfg p = false ∧
        allocateCohorts tm a cfg = .error (.noRegimenShares k)) ∧
    (∀ (tm : TreatmentMap) (a : Assumptions) (cfg : CohortAllocationConfig)
      (pre : AllocPrefix) (r : CohortAllocationResult) (k : String) (p : PathInfo),
      allocPrefix tm a cfg = .ok pre →
      allocateCohorts tm a cfg = .ok r →
      (k, p) ∈ uniquePaths tm → pathHasShares cfg p = false →
      ∀ reg ∈ p.regimen_keys, ∃ c ∈ r.leaf_cohorts,
        c.path = ⟨p.subtype_key, p.setting_key, p.line_key, reg⟩ ∧
        c.patients = pre.treated_pool * pathWeight pre.ctx p *
          (1 / (p.regimen_keys.length : ℚ))) := by
  constructor
  · intro tm a cfg pre k p hpre hfind hallow
    have hmem : (k, p) ∈ uniquePaths tm := List.mem_of_find?_eq_some hfind
    have hn : pathHasShares cfg p = false := by
      have := List.find?_some hfind
      simpa using this
    refine ⟨hmem, hn, ?_⟩
    unfold allocateCohorts
    rw [hpre, ok_bind]
    rw [mapME_error_of_find
      (allocatePath a cfg pre.base_pool pre.treated_rate pre.treated_pool pre.ctx)
      (fun kp => !(pathHasShares cfg kp.2)) (fun kp => .noRegimenShares kp.1)
      (fun kp hkp => allocatePath_ok_shape a cfg _ _ _ _ kp
        (by simp only [Bool.not_eq_false'] at hkp; simp [hkp]))
      (fun kp hkp => allocatePath_noShares_noSplit a cfg _ _ _ _ kp
        (by simpa using hkp) hallow)
      (uniquePaths tm) (k, p) hfind]
    rfl
  · intro tm a cfg pre r k p hpre hok hmem hn reg hreg
    unfold allocateCohorts at hok
    rw [hpre, ok_bind] at hok
    obtain ⟨cohortLists, hlists, hres⟩ := exceptBind_ok hok
    injection hres with hres'
    obtain ⟨y, hy, hymem⟩ := mapME_ok_mem _ _ _ hlists (k, p) hmem
    obtain ⟨c, hcmem, hcpath, hcpat⟩ :=
      allocatePath_equal_split a cfg pre.base_pool pre.treated_rate pre.treated_pool
        pre.ctx k p y hn hy reg hreg
    refine ⟨c, ?_, hcpath, hcpat⟩
    rw [← hres']
    exact List.mem_flatten.mpr ⟨y, hymem, hcmem⟩

/-- Witness for C5: one pathless regimen with no shares and the equal split
disabled raises the path-naming error; with the default configuration three
regimens on one path each receive 100/3 of the 100-patient pool. -/
theorem regimen_share_fallback_witness :
    allocateCohorts tmW1 aW cfgNoSplit = .error (.noRegimenShares "_|_|_") ∧
    (∃ c ∈ (okD (allocateCohorts tmW3 aW DEFAULT_ALLOCATION_CONFIG)
        default).leaf_cohorts,
      c.path = ⟨none, none, none, "r2"⟩ ∧ c.patients = 100 / 3) := by
  constructor
  · cases hpre : allocPrefix tmW1 aW cfgNoSplit with
    | error e =>
      exfalso
      revert hpre
      norm_num [allocPrefix, determineBasePool, validatePopulation, validateRate,
        throwIfInvalid, buildShares, normalizeDimension, uniqueValues, aW, tmW1,
        nodeW, cfgNoSplit, DEFAULT_ALLOCATION_CONFIG, DEFAULT_VALIDATION_CONFIG,
        ok_bind, qOrZero, qTruthy]
      exact fun h => Except.noConfusion h
    | ok pre =>
      exact (regimen_share_fallback.1 tmW1 aW cfgNoSplit pre "_|_|_"
        ⟨none, none, none, ["r1"]⟩ hpre (by decide) rfl).2.2
  · have hpre : allocPrefix tmW3 aW DEFAULT_ALLOCATION_CONFIG = .ok preW := by
      norm_num [allocPrefix, determineBasePool, validatePopulation, validateRate,
        throwIfInvalid, buildShares, normalizeDimension, uniqueValues, aW, tmW3,
        nodeW, DEFAULT_ALLOCATION_CONFIG, DEFAULT_VALIDATION_CONFIG, preW,
        ok_bind, qOrZero, qTruthy]
    cases hok : allocateCohorts tmW3 aW DEFAULT_ALLOCATION_CONFIG with
    | error e =>
      exfalso
      revert hok
      norm_num [allocateCohorts, allocPrefix, determineBasePool, validatePopulation,
        validateRate, throwIfInvalid, buildShares, normalizeDimension, uniqueValues,
        insertUnique, aW, tmW3, nodeW, DEFAULT_ALLOCATION_CONFIG,
        DEFAULT_VALIDATION_CONFIG, ok_bind, error_bind, qOrZero, qTruthy,
        uniquePaths, upsertPathNode, buildPathKey, keyOrU, mapME, allocatePath,
        applyShare, truthyKey, buildPathRegimenShares, pathHasShares,
        configRegimenShares, cohortPatientYears, buildCohortId, mapSum]
      exact fun h => Except.noConfusion h
    | ok r =>
      obtain ⟨c, hcmem, hcpath, hcpat⟩ :=
        regimen_share_fallback.2 tmW3 aW DEFAULT_ALLOCATION_CONFIG preW r "_|_|_"
          ⟨none, none, none, ["r1", "r2", "r3"]⟩ hpre hok (by decide) rfl
          "r2" (by decide)
      refine ⟨c, ?_, hcpath, ?_⟩
      · simpa [okD, hok] using hcmem
      · rw [hcpat]
        norm_num [preW, pathWeight, shareFactor, truthyKey]

theorem mem_of_lookup_eq_some :
    ∀ {l : List (String × ℚ)} {k : String} {v : ℚ},
      l.lookup k = some v → (k, v) ∈ l := by
  intro l
  induction l with
  | nil => intro k v h; simp [List.lookup] at h
  | cons a t ih =>
    intro k v h
    cases hka : (k == a.1) with
    | true =>
      have hk : k = a.1 := beq_iff_eq.mp hka
      simp only [List.lookup, hka] at h
      injection h with h'
      subst hk h'
      exact List.mem_cons_self _ _
    | false =>
      simp only [List.lookup, hka] at h
      exact List.mem_cons_of_mem _ (ih h)

theorem shareFactor_nonneg (key : Option String) (m : ShareMap)
    (hm : ∀ kv ∈ m, 0 ≤ kv.2) : 0 ≤ shareFactor key m := by
  unfold shareFactor
  cases htk : truthyKey key with
  | none => norm_num
  | some k =>
    cases hlk : m.lookup k with
    | none => simp [htk, hlk]
    | some s =>
      simp only [htk, hlk]
      exact hm (k, s) (mem_of_lookup_eq_some hlk)

theorem mapSum_nonneg (m : ShareMap) (hm : ∀ kv ∈ m, 0 ≤ kv.2) : 0 ≤ mapSum m := by
  apply List.sum_nonneg
  intro x hx
  obtain ⟨kv, hkv, rfl⟩ := List.mem_map.mp hx
  exact hm kv hkv

theorem validateShares_normalized_nonneg (shares : ShareMap) (dim : String)
    (cfgv : ValidationConfig) (hvals : ∀ kv ∈ shares, 0 ≤ kv.2) :
    ∀ kv ∈ ((validateShares (toJShares shares) dim cfgv).1.normalized_value.getD []),
      0 ≤ kv.2 := by
  have hsum : 0 ≤ mapSum shares := mapSum_nonneg shares hvals
  have hdiv : ∀ kv ∈ shares.map fun kv => (kv.1, kv.2 / mapSum shares), 0 ≤ kv.2 := by
    intro kv hkv
    obtain ⟨kv', hkv', rfl⟩ := List.mem_map.mp hkv
    exact div_nonneg (hvals kv' hkv') hsum
  unfold validateShares
  by_cases hempty : (toJShares shares).isEmpty = true
  · simp [hempty]
  · rw [if_neg hempty]
    by_cases herr : (shareValueErrors dim (toJShares shares)).isEmpty = true
    · rw [if_pos herr]
      simp only [jShareSum_toJShares, qSharesOf_toJShares]
      split_ifs with h1 h2 h3 h4 h5
      · simpa using hdiv
      · simp
      · simpa using hvals
      · simpa using hdiv
      · simpa using hvals
      · simpa using hvals
    · rw [if_neg herr]
      simp

theorem mem_filterShares {ps : ShareMap} {uniq : List String}
    {kv : String × ℚ} (h : kv ∈ filterSharesForDimension ps uniq) : kv ∈ ps := by
  unfold filterSharesForDimension at h
  obtain ⟨k, _, heq⟩ := List.mem_filterMap.mp h
  obtain ⟨v, hv, hkv⟩ := Option.map_eq_some'.mp heq
  subst hkv
  exact mem_of_lookup_eq_some hv

theorem normalizeDimension_nonneg {dim : String} {uniq : List String}
    {provided : Option ShareMap} {cfgv : ValidationConfig}
    {out : ShareMap × Option ShareValidationTrace × List Warning}
    (h : normalizeDimension dim uniq provided cfgv = .ok out)
    (hp : ∀ ps, provided = some ps → ∀ kv ∈ ps, 0 ≤ kv.2) :
    ∀ kv ∈ out.1, 0 ≤ kv.2 := by
  unfold normalizeDimension at h
  by_cases hu : uniq.isEmpty = true
  · rw [if_pos hu] at h
    injection h with h'
    rw [← h']
    simp
  · rw [if_neg hu] at h
    cases hprov : provided with
    | none =>
      rw [hprov] at h
      injection h with h'
      rw [← h']
      intro kv hkv
      obtain ⟨v, _, rfl⟩ := List.mem_map.mp hkv
      positivity
    | some ps =>
      rw [hprov] at h
      dsimp only at h
      have hfvals : ∀ kv ∈ filterSharesForDimension ps uniq, 0 ≤ kv.2 :=
        fun kv hkv => hp ps hprov kv (mem_filterShares hkv)
      cases hval : validateShares (toJShares (filterSharesForDimension ps uniq)) dim cfgv with
      | mk result trace =>
        rw [hval] at h
        dsimp only at h
        obtain ⟨u, hu1, h2⟩ := exceptBind_ok h
        injection h2 with h2'
        rw [← h2']
        intro kv hkv
        have := validateShares_normalized_nonneg (filterSharesForDimension ps uniq)
          dim cfgv hfvals
        rw [hval] at this
        exact this kv hkv

theorem buildShares_nonneg {tm : TreatmentMap} {a : Assumptions}
    {cfg : CohortAllocationConfig} {ctx : SharesCtx}
    (h : buildShares tm a cfg = .ok ctx)
    (hsub : ∀ m, a.subtype_shares = some m → ∀ kv ∈ m, 0 ≤ kv.2)
    (hset : ∀ m, a.setting_shares = some m → ∀ kv ∈ m, 0 ≤ kv.2)
    (hstage : ∀ m, a.stage_shares = some m → ∀ kv ∈ m, 0 ≤ kv.2)
    (hline : ∀ m, a.line_shares = some m → ∀ kv ∈ m, 0 ≤ kv.2) :
    (∀ kv ∈ ctx.subtype, 0 ≤ kv.2) ∧ (∀ kv ∈ ctx.setting, 0 ≤ kv.2) ∧
      (∀ kv ∈ ctx.line, 0 ≤ kv.2) := by
  unfold buildShares at h
  obtain ⟨o1, h1, h⟩ := exceptBind_ok h
  obtain ⟨o2, h2, h⟩ := exceptBind_ok h
  obtain ⟨o3, h3, h⟩ := exceptBind_ok h
  obtain ⟨sub, t_sub, w1⟩ := o1
  obtain ⟨set, t_set, w2⟩ := o2
  obtain ⟨lin, t_lin, w3⟩ := o3
  injection h with h'
  rw [← h']
  refine ⟨normalizeDimension_nonneg h1 hsub, normalizeDimension_nonneg h2 ?_,
    normalizeDimension_nonneg h3 hline⟩
  intro ps hps
  cases hss : a.setting_shares with
  | some s =>
    rw [hss] at hps
    have : s = ps := by
      have : (some s <|> a.stage_shares) = some ps := hps
      simpa using this
    exact this ▸ hset s hss
  | none =>
    rw [hss] at hps
    have : a.stage_shares = some ps := by simpa using hps
    exact hstage ps this

theorem determineBasePool_nonneg (a : Assumptions) (cfg : CohortAllocationConfig)
    (hprev : ∀ q, a.prevalence = some q → 0 ≤ q)
    (hinc : ∀ q, a.incidence = some q → 0 ≤ q) :
    0 ≤ (determineBasePool a cfg).1 := by
  unfold determineBasePool
  cases cfg.population_model with
  | prevalence_based =>
    cases hp : a.prevalence with
    | none => simp [qOrZero]
    | some q => simpa [qOrZero] using hprev q hp
  | incidence_based =>
    cases hi : a.incidence with
    | none => simp [qOrZero]
    | some q => simpa [qOrZero] using hinc q hi
  | auto =>
    cases hp : a.prevalence with
    | some q =>
      by_cases hq : q ≠ 0 ∧ 0 < q
      · simpa [hq] using le_of_lt hq.2
      · cases hi : a.incidence with
        | some i =>
          by_cases hiq : i ≠ 0 ∧ 0 < i
          · simpa [hq, hiq] using le_of_lt hiq.2
          · simp [hq, hiq]
        | none => simp [hq]
    | none =>
      cases hi : a.incidence with
      | some i =>
        by_cases hiq : i ≠ 0 ∧ 0 < i
        · simpa [hiq] using le_of_lt hiq.2
        · simp [hiq]
      | none => simp

theorem qOrZero_lookup_nonneg {m : ShareMap} (hm : ∀ kv ∈ m, 0 ≤ kv.2)
    (r : String) : 0 ≤ qOrZero (m.lookup r) := by
  cases hl : m.lookup r with
  | none => simp [qOrZero]
  | some v =>
    simp only [qOrZero, Option.getD]
    exact hm (r, v) (mem_of_lookup_eq_some hl)

theorem configRegimenShares_nonneg {cfg : CohortAllocationConfig}
    (hreg : ∀ m, cfg.regimen_shares = some m → ∀ kv ∈ m, 0 ≤ kv.2) :
    ∀ kv ∈ configRegimenShares cfg, 0 ≤ kv.2 := by
  unfold configRegimenShares
  cases hm : cfg.regimen_shares with
  | none => simp
  | some m => simpa using hreg m hm

theorem buildPathRegimenShares_nonneg (cfg : CohortAllocationConfig)
    (k : String) (p : PathInfo) (pop : ℚ)
    (hreg : ∀ m, cfg.regimen_shares = some m → ∀ kv ∈ m, 0 ≤ kv.2) :
    ∀ kv ∈ (buildPathRegimenShares cfg k p pop).1, 0 ≤ kv.2 := by
  have hraw : ∀ r : String, 0 ≤ qOrZero ((configRegimenShares cfg).lookup r) :=
    qOrZero_lookup_nonneg (configRegimenShares_nonneg hreg)
  simp only [buildPathRegimenShares]
  split_ifs with h1 h2
  · intro kv hkv
    obtain ⟨kv', hkv', rfl⟩ := List.mem_map.mp hkv
    obtain ⟨r, _, rfl⟩ := List.mem_map.mp hkv'
    exact div_nonneg (hraw r) (le_of_lt h2.1)
  · intro kv hkv
    obtain ⟨r, _, rfl⟩ := List.mem_map.mp hkv
    exact hraw r
  · intro kv hkv
    obtain ⟨r, _, rfl⟩ := List.mem_map.mp hkv
    show (0:ℚ) ≤ 1 / (p.regimen_keys.length : ℚ)
    positivity

theorem cohortPatientYears_nonneg (a : Assumptions) (p : PathInfo) (pop : ℚ)
    (hpop : 0 ≤ pop)
    (htot : ∀ m, a.time_on_treatment_months = some m → ∀ kv ∈ m, 0 ≤ kv.2) :
    0 ≤ (cohortPatientYears a p pop).1 := by
  have htot' : ∀ kv ∈ (a.time_on_treatment_months.getD []), 0 ≤ kv.2 := by
    cases hm : a.time_on_treatment_months with
    | none => simp
    | some m => simpa using htot m hm
  unfold cohortPatientYears
  cases htk : truthyKey p.line_key with
  | none => simpa using hpop
  | some lk =>
    cases hl : (a.time_on_treatment_months.getD []).lookup lk with
    | none => simpa [htk, hl] using hpop
    | some tot =>
      by_cases h0 : tot = 0
      · simpa [htk, hl, h0] using hpop
      · simp only [htk, hl, h0, if_neg]
        have ht : 0 ≤ tot := htot' (lk, tot) (mem_of_lookup_eq_some hl)
        have : (0:ℚ) ≤ tot / 12 := by positivity
        simpa [h0] using mul_nonneg hpop this

theorem mapME_ok_mem_rev {α β ε : Type} (f : α → Except ε β) :
    ∀ (l : List α) (ys : List β), mapME f l = .ok ys →
      ∀ y ∈ ys, ∃ x ∈ l, f x = .ok y := by
  intro l
  induction l with
  | nil =>
    intro ys h y hy
    rw [mapME] at h
    injection h with h'
    rw [← h'] at hy
    exact absurd hy (List.not_mem_nil y)
  | cons a t ih =>
    intro ys h y hy
    rw [mapME] at h
    obtain ⟨b, hb, h2⟩ := exceptBind_ok h
    obtain ⟨bs, hbs, h3⟩ := exceptBind_ok h2
    injection h3 with h4
    rw [← h4] at hy
    rcases List.mem_cons.mp hy with rfl | hyt
    · exact ⟨a, List.mem_cons_self a t, hb⟩
    · obtain ⟨x, hx, hfx⟩ := ih bs hbs y hyt
      exact ⟨x, List.mem_cons_of_mem a hx, hfx⟩

theorem allocPrefix_ok_inv {tm : TreatmentMap} {a : Assumptions}
    {cfg : CohortAllocationConfig} {pre : AllocPrefix}
    (h : allocPrefix tm a cfg = .ok pre) :
    pre.treated_pool = (determineBasePool a cfg).1 * a.treated_rate ∧
    buildShares tm a cfg = .ok pre.ctx := by
  simp only [allocPrefix] at h
  obtain ⟨u1, _, h⟩ := exceptBind_ok h
  obtain ⟨u2, _, h⟩ := exceptBind_ok h
  obtain ⟨ctx, hctx, h⟩ := exceptBind_ok h
  injection h with h'
  constructor
  · rw [← h']
  · rw [← h']
    exact hctx

theorem allocatePath_nonneg (a : Assumptions) (cfg : CohortAllocationConfig)
    (bp tr tp : ℚ) (ctx : SharesCtx) (kp : String × PathInfo)
    (y : List LeafCohort)
    (htp : 0 ≤ tp)
    (hsub : ∀ kv ∈ ctx.subtype, 0 ≤ kv.2)
    (hset : ∀ kv ∈ ctx.setting, 0 ≤ kv.2)
    (hlin : ∀ kv ∈ ctx.line, 0 ≤ kv.2)
    (hreg : ∀ m, cfg.regimen_shares = some m → ∀ kv ∈ m, 0 ≤ kv.2)
    (htot : ∀ m, a.time_on_treatment_months = some m → ∀ kv ∈ m, 0 ≤ kv.2)
    (hy : allocatePath a cfg bp tr tp ctx kp = .ok y) :
    ∀ c ∈ y, 0 ≤ c.patients ∧ 0 ≤ c.patient_years := by
  simp only [allocatePath] at hy
  by_cases hcond : (¬ pathHasShares cfg kp.2 = true ∧
      ¬ cfg.allow_equal_regimen_split = true)
  · rw [if_pos hcond] at hy
    exact absurd hy (by simp)
  · rw [if_neg hcond] at hy
    injection hy with hy'
    subst hy'
    intro c hc
    obtain ⟨reg, _, rfl⟩ := List.mem_map.mp hc
    dsimp only
    have hcur : 0 ≤ (applyShare "line_allocation" kp.2.line_key ctx.line
        (ctx.traces.line_shares.map (·.normalized))
        (applyShare "setting_allocation" kp.2.setting_key ctx.setting
          (ctx.traces.setting_shares.map (·.normalized))
          (applyShare "subtype_allocation" kp.2.subtype_key ctx.subtype
            (ctx.traces.subtype_shares.map (·.normalized)) tp).1).1).1 := by
      rw [applyShare_fst, applyShare_fst, applyShare_fst]
      exact mul_nonneg (mul_nonneg (mul_nonneg htp
        (shareFactor_nonneg _ _ hsub)) (shareFactor_nonneg _ _ hset))
        (shareFactor_nonneg _ _ hlin)
    constructor
    · exact mul_nonneg hcur
        (qOrZero_lookup_nonneg (buildPathRegimenShares_nonneg cfg kp.1 kp.2 _ hreg) reg)
    · exact cohortPatientYears_nonneg a kp.2 _
        (mul_nonneg hcur
          (qOrZero_lookup_nonneg (buildPathRegimenShares_nonneg cfg kp.1 kp.2 _ hreg) reg))
        htot

/-- **C8** — with inputs in range (rate in `[0,1]`, non-negative base
population, all share values in `[0,1]`), every leaf cohort of a successful
allocation has `patients ≥ 0`, and `patient_years ≥ 0` when every
time-on-treatment entry is non-negative. -/
theorem leaf_cohorts_nonneg (tm : TreatmentMap) (a : Assumptions)
    (cfg : CohortAllocationConfig) (r : CohortAllocationResult)
    (h : allocateCohorts tm a cfg = .ok r)
    (hsub : ∀ m, a.subtype_shares = some m → ∀ kv ∈ m, 0 ≤ kv.2 ∧ kv.2 ≤ 1)
    (hset : ∀ m, a.setting_shares = some m → ∀ kv ∈ m, 0 ≤ kv.2 ∧ kv.2 ≤ 1)
    (hstage : ∀ m, a.stage_shares = some m → ∀ kv ∈ m, 0 ≤ kv.2 ∧ kv.2 ≤ 1)
    (hline : ∀ m, a.line_shares = some m → ∀ kv ∈ m, 0 ≤ kv.2 ∧ kv.2 ≤ 1)
    (hreg : ∀ m, cfg.regimen_shares = some m → ∀ kv ∈ m, 0 ≤ kv.2 ∧ kv.2 ≤ 1)
    (hrate : 0 ≤ a.treated_rate ∧ a.treated_rate ≤ 1)
    (hprev : ∀ q, a.prevalence = some q → 0 ≤ q)
    (hinc : ∀ q, a.incidence = some q → 0 ≤ q)
    (htot : ∀ m, a.time_on_treatment_months = some m → ∀ kv ∈ m, 0 ≤ kv.2) :
    ∀ c ∈ r.leaf_cohorts, 0 ≤ c.patients ∧ 0 ≤ c.patient_years := by
  unfold allocateCohorts at h
  obtain ⟨pre, hpre, h⟩ := exceptBind_ok h
  obtain ⟨cohortLists, hlists, h⟩ := exceptBind_ok h
  injection h with h'
  obtain ⟨htp_eq, hshares⟩ := allocPrefix_ok_inv hpre
  have htp : 0 ≤ pre.treated_pool := by
    rw [htp_eq]
    exact mul_nonneg (determineBasePool_nonneg a cfg hprev hinc) hrate.1
  obtain ⟨hsub', hset', hlin'⟩ := buildShares_nonneg hshares
    (fun m hm kv hkv => (hsub m hm kv hkv).1)
    (fun m hm kv hkv => (hset m hm kv hkv).1)
    (fun m hm kv hkv => (hstage m hm kv hkv).1)
    (fun m hm kv hkv => (hline m hm kv hkv).1)
  intro c hc
  rw [← h'] at hc
  obtain ⟨y, hymem, hcy⟩ := List.mem_flatten.mp hc
  obtain ⟨kp, _, hkp⟩ := mapME_ok_mem_rev _ _ _ hlists y hymem
  exact allocatePath_nonneg a cfg pre.base_pool pre.treated_rate pre.treated_pool
    pre.ctx kp y htp hsub' hset' hlin'
    (fun m hm kv hkv => (hreg m hm kv hkv).1) htot hkp c hcy

/-- Witness for C8: the three-regimen example allocation has only
non-negative cohorts. -/
theorem leaf_cohorts_nonneg_witness :
    ((okD (allocateCohorts tmW3 aW DEFAULT_ALLOCATION_CONFIG) default).leaf_cohorts.all
      fun c => decide (0 ≤ c.patients) && decide (0 ≤ c.patient_years)) = true := by
  cases hok : allocateCohorts tmW3 aW DEFAULT_ALLOCATION_CONFIG with
  | error e =>
    exfalso
    revert hok
    norm_num [allocateCohorts, allocPrefix, determineBasePool, validatePopulation,
      validateRate, throwIfInvalid, buildShares, normalizeDimension, uniqueValues,
      insertUnique, aW, tmW3, nodeW, DEFAULT_ALLOCATION_CONFIG,
      DEFAULT_VALIDATION_CONFIG, ok_bind, error_bind, qOrZero, qTruthy,
      uniquePaths, upsertPathNode, buildPathKey, keyOrU, mapME, allocatePath,
      applyShare, truthyKey, buildPathRegimenShares, pathHasShares,
      configRegimenShares, cohortPatientYears, buildCohortId, mapSum]
    exact fun h => Except.noConfusion h
  | ok r =>
    have hnn := leaf_cohorts_nonneg tmW3 aW DEFAULT_ALLOCATION_CONFIG r hok
      (by simp [aW]) (by simp [aW]) (by simp [aW]) (by simp [aW])
      (by simp [DEFAULT_ALLOCATION_CONFIG]) (by norm_num [aW])
      (by intro q hq; simp [aW] at hq; rw [← hq]; norm_num)
      (by simp [aW]) (by simp [aW])
    simp only [okD, hok, Except.toOption, Option.getD]
    apply List.all_eq_true.mpr
    intro c hc
    have := hnn c hc
    simp [this.1, this.2]

theorem sum_map_mul_left {α : Type} (l : List α) (f : α → ℚ) (c : ℚ) :
    (l.map fun x => c * f x).sum = c * (l.map f).sum := by
  induction l with
  | nil => simp
  | cons a t ih => simp [ih, mul_add]

theorem sum_map_div {α : Type} (l : List α) (f : α → ℚ) (c : ℚ) :
    (l.map fun x => f x / c).sum = (l.map f).sum / c := by
  induction l with
  | nil => simp
  | cons a t ih => simp [ih, add_div]

theorem upsertPathNode_keys_ne_nil (acc : List (String × PathInfo))
    (n : TreatmentNode) (h : ∀ kp ∈ acc, kp.2.regimen_keys ≠ []) :
    ∀ kp ∈ upsertPathNode acc n, kp.2.regimen_keys ≠ [] := by
  simp only [upsertPathNode]
  split_ifs with hmem
  · intro kp hkp
    obtain ⟨kp', hkp', rfl⟩ := List.mem_map.mp hkp
    by_cases heq : kp'.1 = buildPathKey n.subtype_key n.setting_key n.line_key
    · simp only [heq, if_pos]
      split_ifs with hr
      · exact h kp' hkp'
      · simp
    · simp only [heq, if_neg, not_false_iff]
      exact h kp' hkp'
  · intro kp hkp
    rcases List.mem_append.mp hkp with hl | hr
    · exact h kp hl
    · rcases List.mem_singleton.mp hr with rfl
      simp

theorem uniquePaths_keys_ne_nil (tm : TreatmentMap) :
    ∀ kp ∈ uniquePaths tm, kp.2.regimen_keys ≠ [] := by
  unfold uniquePaths
  have hgen : ∀ (nodes : List TreatmentNode) (acc : List (String × PathInfo)),
      (∀ kp ∈ acc, kp.2.regimen_keys ≠ []) →
      ∀ kp ∈ nodes.foldl upsertPathNode acc, kp.2.regimen_keys ≠ [] := by
    intro nodes
    induction nodes with
    | nil => intro acc h; simpa using h
    | cons n t ih =>
      intro acc h
      exact ih (upsertPathNode acc n) (upsertPathNode_keys_ne_nil acc n h)
  exact hgen tm.nodes [] (by simp)

/-- The regimen shares actually applied at a path sum to 1 whenever the
configured shares at the path sum to 1 or trigger renormalization (or no
shares exist and the equal split is used). -/
theorem pathRegimenShares_sum (cfg : CohortAllocationConfig) (k : String)
    (p : PathInfo) (pop : ℚ) (hne : p.regimen_keys ≠ [])
    (hok : regimenSumOK cfg p) :
    (p.regimen_keys.map fun reg =>
      qOrZero ((buildPathRegimenShares cfg k p pop).1.lookup reg)).sum = 1 := by
  have hlen : (0 : ℚ) < (p.regimen_keys.length : ℚ) := by
    have : 0 < p.regimen_keys.length := List.length_pos.mpr hne
    exact_mod_cast this
  simp only [buildPathRegimenShares]
  split_ifs with h1 h2
  · -- configured shares, renormalized within the path
    have hs : (0 : ℚ) < pathRegimenSum cfg p := by
      have := h2.1
      simpa [pathRegimenSum, List.map_map, Function.comp_def] using this
    have hmap : (List.map (fun kv => (kv.1, kv.2 / ((List.map (fun x => x.2)
        (List.map (fun r => (r, qOrZero ((configRegimenShares cfg).lookup r)))
          p.regimen_keys)).sum)))
        (List.map (fun r => (r, qOrZero ((configRegimenShares cfg).lookup r)))
          p.regimen_keys)) =
        p.regimen_keys.map fun r =>
          (r, qOrZero ((configRegimenShares cfg).lookup r) / pathRegimenSum cfg p) := by
      rw [List.map_map]
      apply List.map_congr_left
      intro r _
      simp [Function.comp_def, pathRegimenSum, List.map_map]
    rw [hmap]
    have hlook : ∀ reg ∈ p.regimen_keys,
        qOrZero ((p.regimen_keys.map fun r =>
          (r, qOrZero ((configRegimenShares cfg).lookup r) / pathRegimenSum cfg p)).lookup reg) =
        qOrZero ((configRegimenShares cfg).lookup reg) / pathRegimenSum cfg p := by
      intro reg hreg
      rw [lookup_map_self _ p.regimen_keys reg hreg]
      rfl
    rw [List.map_congr_left hlook, sum_map_div]
    rw [show (p.regimen_keys.map fun reg =>
        qOrZero ((configRegimenShares cfg).lookup reg)).sum = pathRegimenSum cfg p from rfl]
    exact div_self (ne_of_gt hs)
  · -- configured shares used as-is: the sum must be exactly 1
    have hsum1 : pathRegimenSum cfg p = 1 := by
      rcases hok h1 with h | h
      · exact h
      · exfalso
        apply h2
        constructor
        · simpa [pathRegimenSum, List.map_map, Function.comp_def] using h.1
        · simpa [pathRegimenSum, List.map_map, Function.comp_def] using h.2
    have hlook : ∀ reg ∈ p.regimen_keys,
        qOrZero ((p.regimen_keys.map fun r =>
          (r, qOrZero ((configRegimenShares cfg).lookup r))).lookup reg) =
        qOrZero ((configRegimenShares cfg).lookup reg) := by
      intro reg hreg
      rw [lookup_map_self _ p.regimen_keys reg hreg]
      rfl
    rw [List.map_congr_left hlook]
    exact hsum1
  · -- equal split
    have hlook : ∀ reg ∈ p.regimen_keys,
        qOrZero ((p.regimen_keys.map fun r =>
          (r, 1 / (p.regimen_keys.length : ℚ))).lookup reg) =
        1 / (p.regimen_keys.length : ℚ) := by
      intro reg hreg
      rw [lookup_map_self (fun _ => 1 / (p.regimen_keys.length : ℚ))
        p.regimen_keys reg hreg]
      rfl
    rw [List.map_congr_left hlook]
    rw [List.map_const', List.sum_replicate, nsmul_eq_mul]
    field_simp

/-- The patients of one successful path allocation sum to the path's
population (treated pool × dimension-share product). -/
theorem allocatePath_patients_sum (a : Assumptions) (cfg : CohortAllocationConfig)
    (bp tr tp : ℚ) (ctx : SharesCtx) (kp : String × PathInfo)
    (y : List LeafCohort)
    (hne : kp.2.regimen_keys ≠ [])
    (hok : regimenSumOK cfg kp.2)
    (hy : allocatePath a cfg bp tr tp ctx kp = .ok y) :
    (y.map (·.patients)).sum = tp * pathWeight ctx kp.2 := by
  simp only [allocatePath] at hy
  by_cases hcond : (¬ pathHasShares cfg kp.2 = true ∧
      ¬ cfg.allow_equal_regimen_split = true)
  · rw [if_pos hcond] at hy
    exact absurd hy (by simp)
  · rw [if_neg hcond] at hy
    injection hy with hy'
    subst hy'
    set cur := (applyShare "line_allocation" kp.2.line_key ctx.line
      (ctx.traces.line_shares.map (·.normalized))
      (applyShare "setting_allocation" kp.2.setting_key ctx.setting
        (ctx.traces.setting_shares.map (·.normalized))
        (applyShare "subtype_allocation" kp.2.subtype_key ctx.subtype
          (ctx.traces.subtype_shares.map (·.normalized)) tp).1).1).1 with hcurdef
    rw [List.map_map]
    show (kp.2.regimen_keys.map fun reg =>
      cur * qOrZero ((buildPathRegimenShares cfg kp.1 kp.2 cur).1.lookup reg)).sum =
      tp * pathWeight ctx kp.2
    rw [sum_map_mul_left, pathRegimenShares_sum cfg kp.1 kp.2 cur hne hok, mul_one,
      hcurdef, applyShare_fst, applyShare_fst, applyShare_fst]
    unfold pathWeight
    ring

/-- Summing leaf patients over all successfully allocated paths. -/
theorem mapME_flatten_sum {α : Type} (f : α → Except AllocError (List LeafCohort))
    (g : α → ℚ) :
    ∀ (l : List α) (ys : List (List LeafCohort)), mapME f l = .ok ys →
      (∀ x ∈ l, ∀ y, f x = .ok y → (y.map (·.patients)).sum = g x) →
      ((ys.flatten.map (·.patients)).sum = (l.map g).sum) := by
  intro l
  induction l with
  | nil =>
    intro ys h _
    rw [mapME] at h
    injection h with h'
    rw [← h']
    simp
  | cons a t ih =>
    intro ys h hg
    rw [mapME] at h
    obtain ⟨b, hb, h2⟩ := exceptBind_ok h
    obtain ⟨bs, hbs, h3⟩ := exceptBind_ok h2
    injection h3 with h4
    rw [← h4]
    simp only [List.flatten_cons, List.map_append, List.sum_append, List.map_cons,
      List.sum_cons]
    rw [hg a (List.mem_cons_self a t) b hb,
      ih bs hbs (fun x hx => hg x (List.mem_cons_of_mem a hx))]

/-- **C1** (amended) — the conservation invariant: for any accepted
allocation, `total_allocated` is the raw sum of the leaf patients, and a
deviation of the conservation ratio beyond the tolerance only appends a
warning (the cohorts are never adjusted).  When moreover the per-path
products of the applied dimension shares sum to 1 over the taxonomy's
unique paths (e.g. a full cross-product taxonomy with per-dimension shares
summing to 1), and each path's regimen shares sum to 1 or are renormalized
or equal-split, the allocation conserves exactly: `total_allocated =
treated_pool` and `conservation_ratio = 1`, within any non-negative
tolerance. -/
theorem allocation_conservation (tm : TreatmentMap) (a : Assumptions)
    (cfg : CohortAllocationConfig) (pre : AllocPrefix) (r : CohortAllocationResult)
    (hpre : allocPrefix tm a cfg = .ok pre)
    (h : allocateCohorts tm a cfg = .ok r) :
    r.total_allocated = (r.leaf_cohorts.map (·.patients)).sum ∧
    (cfg.share_sum_tolerance < |r.conservation_ratio - 1| →
      Warning.conservation r.total_allocated r.treated_pool ∈ r.warnings) ∧
    (0 ≤ cfg.share_sum_tolerance →
      ((uniquePaths tm).map fun kp => pathWeight pre.ctx kp.2).sum = 1 →
      (∀ kp ∈ uniquePaths tm, regimenSumOK cfg kp.2) →
      r.total_allocated = r.treated_pool ∧ r.conservation_ratio = 1 ∧
        |r.conservation_ratio - 1| ≤ cfg.share_sum_tolerance) := by
  simp only [allocateCohorts] at h
  rw [hpre, ok_bind] at h
  obtain ⟨lists, hlists, h⟩ := exceptBind_ok h
  injection h with h'
  subst h'
  refine ⟨rfl, ?_, ?_⟩
  · intro hcond
    dsimp only at hcond
    dsimp only
    rw [if_pos hcond]
    exact List.mem_append_right _ (List.mem_singleton.mpr rfl)
  · intro htol hw hreg
    have htotal : ((lists.flatten.map (·.patients)).sum) = pre.treated_pool := by
      rw [mapME_flatten_sum
        (allocatePath a cfg pre.base_pool pre.treated_rate pre.treated_pool pre.ctx)
        (fun kp => pre.treated_pool * pathWeight pre.ctx kp.2)
        (uniquePaths tm) lists hlists ?_]
      · rw [sum_map_mul_left, hw, mul_one]
      · intro kp hkp y hy
        exact allocatePath_patients_sum a cfg pre.base_pool pre.treated_rate
          pre.treated_pool pre.ctx kp y (uniquePaths_keys_ne_nil tm kp hkp)
          (hreg kp hkp) hy
    have hratio : (if 0 < pre.treated_pool
        then (lists.flatten.map (·.patients)).sum / pre.treated_pool else 1) = 1 := by
      split_ifs with hp
      · rw [htotal]
        exact div_self (ne_of_gt hp)
      · rfl
    refine ⟨?_, ?_, ?_⟩
    · exact htotal
    · exact hratio
    · dsimp only
      rw [hratio]
      simpa using htol

/-- Counterexample to C1 as stated: a two-path taxonomy that is not a cross
product.  Both dimension share maps cover all values and sum exactly to
1.0, the equal regimen split covers every path, the allocation succeeds —
yet only half of the treated pool is allocated: `conservation_ratio = 0.5`,
far outside the 5% tolerance. -/
theorem allocation_conservation_counterexample :
    mapSum [("A", (1:ℚ)/2), ("B", 1/2)] = 1 ∧
    mapSum [("X", (1:ℚ)/2), ("Y", 1/2)] = 1 ∧
    DEFAULT_ALLOCATION_CONFIG.allow_equal_regimen_split = true ∧
    (allocateCohorts tmCx aCx DEFAULT_ALLOCATION_CONFIG).toOption.isSome = true ∧
    (okD (allocateCohorts tmCx aCx DEFAULT_ALLOCATION_CONFIG) default).treated_pool
      = 1000 ∧
    (okD (allocateCohorts tmCx aCx DEFAULT_ALLOCATION_CONFIG) default).total_allocated
      = 500 ∧
    (okD (allocateCohorts tmCx aCx DEFAULT_ALLOCATION_CONFIG) default).conservation_ratio
      = 1 / 2 ∧
    ¬ (|(okD (allocateCohorts tmCx aCx DEFAULT_ALLOCATION_CONFIG)
          default).conservation_ratio - 1| ≤
        DEFAULT_ALLOCATION_CONFIG.share_sum_tolerance) := by
  have hvsSub :
      validateShares (toJShares (filterSharesForDimension [("A", (1:ℚ)/2), ("B", 1/2)] ["A", "B"]))
        "subtype_shares" DEFAULT_ALLOCATION_CONFIG.toValidationConfig =
      ({ valid := true, errors := [], warnings := [],
         normalized_value := some [("A", 1/2), ("B", 1/2)] }, trSub) := by
    rw [show toJShares (filterSharesForDimension [("A", (1:ℚ)/2), ("B", 1/2)] ["A", "B"]) =
      [("A", JNum.num (1/2)), ("B", JNum.num (1/2))] from rfl]
    norm_num [validateShares, shareValueErrors, qSharesOf, jShareSum, mapSum,
      DEFAULT_ALLOCATION_CONFIG, DEFAULT_VALIDATION_CONFIG, trSub, JNum.toQ,
      List.isEmpty]
  have hvsSet :
      validateShares (toJShares (filterSharesForDimension [("X", (1:ℚ)/2), ("Y", 1/2)] ["X", "Y"]))
        "setting_shares" DEFAULT_ALLOCATION_CONFIG.toValidationConfig =
      ({ valid := true, errors := [], warnings := [],
         normalized_value := some [("X", 1/2), ("Y", 1/2)] }, trSet) := by
    rw [show toJShares (filterSharesForDimension [("X", (1:ℚ)/2), ("Y", 1/2)] ["X", "Y"]) =
      [("X", JNum.num (1/2)), ("Y", JNum.num (1/2))] from rfl]
    norm_num [validateShares, shareValueErrors, qSharesOf, jShareSum, mapSum,
      DEFAULT_ALLOCATION_CONFIG, DEFAULT_VALIDATION_CONFIG, trSet, JNum.toQ,
      List.isEmpty]
  have hndSub :
      normalizeDimension "subtype_shares" (uniqueValues (fun n => n.subtype_key) tmCx.nodes)
        aCx.subtype_shares DEFAULT_ALLOCATION_CONFIG.toValidationConfig =
      .ok ([("A", 1/2), ("B", 1/2)], some trSub, []) := by
    rw [show uniqueValues (fun n => n.subtype_key) tmCx.nodes = ["A", "B"] from rfl,
      show aCx.subtype_shares = some [("A", 1/2), ("B", 1/2)] from rfl]
    simp only [normalizeDimension, List.isEmpty, hvsSub]
    rfl
  have hndSet :
      normalizeDimension "setting_shares" (uniqueValues (fun n => n.setting_key) tmCx.nodes)
        (aCx.setting_shares <|> aCx.stage_shares) DEFAULT_ALLOCATION_CONFIG.toValidationConfig =
      .ok ([("X", 1/2), ("Y", 1/2)], some trSet, []) := by
    rw [show uniqueValues (fun n => n.setting_key) tmCx.nodes = ["X", "Y"] from rfl,
      show (aCx.setting_shares <|> aCx.stage_shares) = some [("X", 1/2), ("Y", 1/2)] from rfl]
    simp only [normalizeDimension, List.isEmpty, hvsSet]
    rfl
  have hbs : buildShares tmCx aCx DEFAULT_ALLOCATION_CONFIG = .ok ctxCx := by
    simp only [buildShares, hndSub, hndSet]
    rfl
  have hpre : allocPrefix tmCx aCx DEFAULT_ALLOCATION_CONFIG = .ok preCx := by
    simp only [allocPrefix, hbs]
    norm_num [determineBasePool, validatePopulation, validateRate, throwIfInvalid,
      qOrZero, qTruthy, aCx, DEFAULT_ALLOCATION_CONFIG, DEFAULT_VALIDATION_CONFIG,
      preCx]
    rfl
  obtain ⟨y1, hy1⟩ := allocatePath_ok_shape aCx DEFAULT_ALLOCATION_CONFIG 1000 1 1000 ctxCx
    ("A|X|_", pCxA) (fun hc => hc.2 rfl)
  obtain ⟨y2, hy2⟩ := allocatePath_ok_shape aCx DEFAULT_ALLOCATION_CONFIG 1000 1 1000 ctxCx
    ("B|Y|_", pCxB) (fun hc => hc.2 rfl)
  have hs1 : (y1.map (·.patients)).sum = 1000 * pathWeight ctxCx pCxA :=
    allocatePath_patients_sum aCx DEFAULT_ALLOCATION_CONFIG 1000 1 1000 ctxCx
      ("A|X|_", pCxA) y1 (by simp [pCxA])
      (fun hhas => absurd hhas (by decide)) hy1
  have hs2 : (y2.map (·.patients)).sum = 1000 * pathWeight ctxCx pCxB :=
    allocatePath_patients_sum aCx DEFAULT_ALLOCATION_CONFIG 1000 1 1000 ctxCx
      ("B|Y|_", pCxB) y2 (by simp [pCxB])
      (fun hhas => absurd hhas (by decide)) hy2
  have htot : (([y1, y2].flatten.map (·.patients)).sum) = 500 := by
    simp only [List.flatten_cons, List.flatten_nil, List.append_nil, List.map_append,
      List.sum_append, hs1, hs2]
    rw [show pathWeight ctxCx pCxA = 1/2 * (1/2) * 1 from rfl,
        show pathWeight ctxCx pCxB = 1/2 * (1/2) * 1 from rfl]
    norm_num
  have hm : mapME (allocatePath aCx DEFAULT_ALLOCATION_CONFIG preCx.base_pool
      preCx.treated_rate preCx.treated_pool preCx.ctx) (uniquePaths tmCx) = .ok [y1, y2] := by
    rw [show preCx.base_pool = 1000 from rfl, show preCx.treated_rate = 1 from rfl,
        show preCx.treated_pool = 1000 from rfl, show preCx.ctx = ctxCx from rfl,
        show uniquePaths tmCx = [("A|X|_", pCxA), ("B|Y|_", pCxB)] from rfl]
    simp only [mapME, hy1, hy2, ok_bind]
  have hAC : allocateCohorts tmCx aCx DEFAULT_ALLOCATION_CONFIG = .ok
      { base_pool := 1000, base_pool_source := .prevalence, treated_pool := 1000,
        leaf_cohorts := [y1, y2].flatten, total_allocated := 500,
        share_traces := ctxCx.traces, conservation_ratio := 1/2,
        warnings := [Warning.conservation 500 1000] } := by
    simp only [allocateCohorts, hpre, ok_bind, hm]
    rw [htot, show preCx.treated_pool = 1000 from rfl,
      if_pos (by norm_num : (0:ℚ) < 1000)]
    norm_num [preCx, ctxCx, DEFAULT_ALLOCATION_CONFIG, DEFAULT_VALIDATION_CONFIG]
    rw [show |(1:ℚ)/2| = 1/2 from abs_of_pos (by norm_num)]
    norm_num
  refine ⟨by norm_num [mapSum], by norm_num [mapSum], rfl, ?_, ?_, ?_, ?_, ?_⟩
  · rw [hAC]; rfl
  · simp only [okD, hAC, Except.toOption, Option.getD]
  · simp only [okD, hAC, Except.toOption, Option.getD]
  · simp only [okD, hAC, Except.toOption, Option.getD]
  · simp only [okD, hAC, Except.toOption, Option.getD]
    rw [show |(1:ℚ)/2 - 1| = 1/2 from by
      rw [abs_sub_comm, abs_of_pos (by norm_num : (0:ℚ) < 1 - 1/2)]
      norm_num]
    norm_num [DEFAULT_ALLOCATION_CONFIG, DEFAULT_VALIDATION_CONFIG]

/-- Witness for C1 (amended): the single-path three-regimen example
conserves exactly (`conservation_ratio = 1`). -/
theorem allocation_conservation_witness :
    (okD (allocateCohorts tmW3 aW DEFAULT_ALLOCATION_CONFIG)
      default).conservation_ratio = 1 ∧
    (okD (allocateCohorts tmW3 aW DEFAULT_ALLOCATION_CONFIG)
      default).total_allocated =
      (okD (allocateCohorts tmW3 aW DEFAULT_ALLOCATION_CONFIG)
        default).treated_pool ∧
    |(okD (allocateCohorts tmW3 aW DEFAULT_ALLOCATION_CONFIG)
        default).conservation_ratio - 1| ≤
      DEFAULT_ALLOCATION_CONFIG.share_sum_tolerance := by
  have hpre : allocPrefix tmW3 aW DEFAULT_ALLOCATION_CONFIG = .ok preW := by
    norm_num [allocPrefix, determineBasePool, validatePopulation, validateRate,
      throwIfInvalid, buildShares, normalizeDimension, uniqueValues, aW, tmW3,
      nodeW, DEFAULT_ALLOCATION_CONFIG, DEFAULT_VALIDATION_CONFIG, preW,
      ok_bind, qOrZero, qTruthy]
  cases hok : allocateCohorts tmW3 aW DEFAULT_ALLOCATION_CONFIG with
  | error e =>
    exfalso
    revert hok
    norm_num [allocateCohorts, allocPrefix, determineBasePool, validatePopulation,
      validateRate, throwIfInvalid, buildShares, normalizeDimension, uniqueValues,
      insertUnique, aW, tmW3, nodeW, DEFAULT_ALLOCATION_CONFIG,
      DEFAULT_VALIDATION_CONFIG, ok_bind, error_bind, qOrZero, qTruthy,
      uniquePaths, upsertPathNode, buildPathKey, keyOrU, mapME, allocatePath,
      applyShare, truthyKey, buildPathRegimenShares, pathHasShares,
      configRegimenShares, cohortPatientYears, buildCohortId, mapSum]
    exact fun h => Except.noConfusion h
  | ok r =>
    have h := (allocation_conservation tmW3 aW DEFAULT_ALLOCATION_CONFIG preW r
      hpre hok).2.2 (by norm_num [DEFAULT_ALLOCATION_CONFIG, DEFAULT_VALIDATION_CONFIG])
      (by norm_num [uniquePaths, upsertPathNode, buildPathKey, keyOrU, tmW3,
        nodeW, pathWeight, shareFactor, truthyKey, preW])
      (by
        intro kp hkp hhas
        norm_num +decide [uniquePaths, upsertPathNode, buildPathKey, keyOrU,
          tmW3, nodeW] at hkp
        subst hkp
        norm_num [pathHasShares, configRegimenShares,
          DEFAULT_ALLOCATION_CONFIG] at hhas)
    simp only [okD, hok, Except.toOption, Option.getD]
    exact ⟨h.2.1, h.1, h.2.2⟩

/-- A successful `mapME` computes exactly the pointwise results, in order. -/
theorem mapME_ok_eq_map {α β ε : Type} (f : α → Except ε β) (d : β) :
    ∀ (l : List α) (ys : List β), mapME f l = .ok ys →
      ys = l.map fun x => okD (f x) d := by
  intro l
  induction l with
  | nil =>
    intro ys h
    rw [mapME] at h
    injection h with h'
    rw [← h', List.map_nil]
  | cons a t ih =>
    intro ys h
    rw [mapME] at h
    obtain ⟨b, hb, h2⟩ := exceptBind_ok h
    obtain ⟨bs, hbs, h3⟩ := exceptBind_ok h2
    injection h3 with h4
    rw [← h4, List.map_cons, ← ih bs hbs, hb]
    rfl

/-- **C7** — `generateForecast` runs every scenario of
`base_assumptions.scenarios` (fallback: the single `base` scenario) at every
year offset `0..horizon_years` inclusive, in order, concatenating the
per-cell records; each cell re-runs the full population allocation and
demand pipeline on the scaled assumptions and stamps every record with the
scenario name and `base_year + t`; the scaled assumptions multiply a
truthy incidence and prevalence by `(1 + incidence_cagr) ^ t`, the treated
rate by the scenario's rate multiplier, and every time-on-treatment entry
by the scenario's ToT multiplier. -/
theorem generateForecast_scenario_grid :
    (∀ (ext : ExternalFns) (tm : TreatmentMap) (base : Assumptions)
        (rs : List ForecastRecord),
      generateForecast ext tm base = .ok rs →
      (∀ ns ∈ scenariosOf base, ∀ t : ℕ, t ≤ base.horizon_years →
        ∃ cell, forecastCell ext tm base ns.1 ns.2 t = .ok cell) ∧
      rs = ((scenariosOf base).map fun ns =>
          (((List.range (base.horizon_years + 1)).map fun t =>
              okD (forecastCell ext tm base ns.1 ns.2 t) []).flatten)).flatten) ∧
    (∀ (ext : ExternalFns) (tm : TreatmentMap) (base : Assumptions)
        (name : String) (sc : ScenarioParameters) (t : ℕ)
        (cell : List ForecastRecord),
      forecastCell ext tm base name sc t = .ok cell →
      (∃ pop, allocatePopulation tm (scaledAssumptions base sc t)
          DEFAULT_ALLOCATION_CONFIG = .ok pop) ∧
      ∀ fr ∈ cell, fr.scenario = name ∧ fr.year = base.base_year + (t : ℤ)) ∧
    (∀ (base : Assumptions) (sc : ScenarioParameters) (t : ℕ),
      (∀ inc : ℚ, base.incidence = some inc → inc ≠ 0 →
        (scaledAssumptions base sc t).incidence =
          some (inc * (1 + sc.incidence_cagr) ^ t)) ∧
      (∀ prev : ℚ, base.prevalence = some prev → prev ≠ 0 →
        (scaledAssumptions base sc t).prevalence =
          some (prev * (1 + sc.incidence_cagr) ^ t)) ∧
      (scaledAssumptions base sc t).treated_rate =
        base.treated_rate * sc.treated_rate_multiplier ∧
      (∀ m, base.time_on_treatment_months = some m →
        (scaledAssumptions base sc t).time_on_treatment_months =
          some (m.map fun kv => (kv.1, kv.2 * sc.tot_multiplier)))) := by
  refine ⟨?_, ?_, ?_⟩
  · intro ext tm base rs h
    simp only [generateForecast] at h
    obtain ⟨blocks, hblocks, h2⟩ := exceptBind_ok h
    injection h2 with h2'
    constructor
    · intro ns hns t ht
      obtain ⟨block, hblock, _⟩ := mapME_ok_mem _ _ _ hblocks ns hns
      obtain ⟨cells, hcells, _⟩ := exceptBind_ok hblock
      obtain ⟨cell, hcell, _⟩ := mapME_ok_mem _ _ _ hcells t
        (List.mem_range.mpr (Nat.lt_succ_of_le ht))
      exact ⟨cell, hcell⟩
    · rw [← h2', mapME_ok_eq_map _ [] _ _ hblocks]
      refine congrArg List.flatten (List.map_congr_left ?_)
      intro ns hns
      obtain ⟨block, hblock, _⟩ := mapME_ok_mem _ _ _ hblocks ns hns
      obtain ⟨cells, hcells, hb2⟩ := exceptBind_ok hblock
      injection hb2 with hb2'
      rw [hblock]
      show block = _
      rw [← hb2', mapME_ok_eq_map _ [] _ _ hcells]
  · intro ext tm base name sc t cell h
    simp only [forecastCell] at h
    obtain ⟨pop, hpop, h2⟩ := exceptBind_ok h
    refine ⟨⟨pop, hpop⟩, ?_⟩
    injection h2 with h2'
    intro fr hfr
    rw [← h2'] at hfr
    obtain ⟨dn, hdn, hg⟩ := List.mem_filterMap.mp hfr
    cases hfind : (pop.nodes.find? fun n => n.node_id == dn.node_id) with
    | none => rw [hfind] at hg; exact Option.noConfusion hg
    | some pn =>
      rw [hfind] at hg
      injection hg with hg'
      rw [← hg']
      exact ⟨rfl, rfl⟩
  · intro base sc t
    refine ⟨?_, ?_, rfl, ?_⟩
    · intro inc hinc hne
      simp only [scaledAssumptions, hinc, qTruthy]
      simp [hne]
    · intro prev hprev hne
      simp only [scaledAssumptions, hprev, qTruthy]
      simp [hne]
    · intro m hm
      simp only [scaledAssumptions, hm]
      rfl

/-- Witness for C7: with an empty scenario map the grid is empty, and the
claim's own compounding example — base incidence 100,000, CAGR 0.01 —
gives year-offset-5 incidence `100000 * 1.01 ^ 5 = 105101.00501`. -/
theorem generateForecast_scenario_grid_witness :
    (([] : List ForecastRecord) =
      ((scenariosOf aF0).map fun ns =>
          (((List.range (aF0.horizon_years + 1)).map fun t =>
              okD (forecastCell extW tmW1 aF0 ns.1 ns.2 t) []).flatten)).flatten) ∧
    (scaledAssumptions aF ⟨1/100, 1, 1, 1⟩ 5).incidence =
      some (10510100501 / 100000) := by
  refine ⟨(generateForecast_scenario_grid.1 extW tmW1 aF0 [] rfl).2, ?_⟩
  have h := (generateForecast_scenario_grid.2.2 aF ⟨1/100, 1, 1, 1⟩ 5).1 100000
    rfl (by norm_num)
  rw [h]
  norm_num

end ADF
